import Mathlib

/-!
Verification development for the `WaveformProcessing` class of
`src/utility/waveform_processing.py` (repository `JPA_measurement`).

The Python class keeps a complex waveform together with derived arrays
(time axis, centered frequency axis, one-sided frequency axis, centered
spectrum, one-sided power in watts and in dBm) and mutates them through
transform, filter, windowing, resize and query operations.

Shallow embedding conventions:
* numpy arrays become `List ℂ` / `List ℝ`; machine floats become exact
  reals (ℝ/ℂ), so floating-point rounding disappears and "within 1e-9
  relative tolerance" statements are settled by exact equality;
* Python exceptions (`AttributeError` on a never-assigned attribute,
  `IndexError` from `np.where(...)[0][0]` on an empty match or an
  out-of-bounds scalar index, `ValueError` from `np.fft.fft` on an empty
  array or `np.zeros` on a negative count, `ZeroDivisionError`) become
  `Except PyErr`;
* attributes that `__init__` assigns only when `fourier_transform=True`
  (`spectrum_array`, `power_array_W`, `power_array_dBm`) become `Option`
  fields, `none` meaning "attribute not yet set";
* `length_roll : ℕ` with truncated subtraction coincides with Python's
  `(length - 1) // 2` for every `length ≥ 1`; the only state with
  `length = 0` that constructs successfully has `fourier_transform=False`
  and none of the claims observe its `length_roll`-derived fields.
-/

open scoped BigOperators

noncomputable section

namespace WP

/-- Python slice `xs[a:b]` (with `0 ≤ a ≤ b` clamped to the list length;
an empty slice when `b ≤ a`, exactly as in Python). -/
def pyslice (xs : List ℂ) (a b : ℕ) : List ℂ :=
  (xs.drop a).take (b - a)

/-- Python slice for real-valued arrays. -/
def pysliceR (xs : List ℝ) (a b : ℕ) : List ℝ :=
  (xs.drop a).take (b - a)

/-- `np.linspace(a, b, n, endpoint)`: `n` values `a + i*step` with
`step = (b-a)/n` when `endpoint=False` and `step = (b-a)/(n-1)` when
`endpoint=True`. For `n = 1` with `endpoint=True` numpy returns `[a]`,
which the formula below also yields because `(n:ℝ) - 1 = 0` and division
by zero is zero in Lean. -/
def linspace (a b : ℝ) (n : ℕ) (endpoint : Bool) : List ℝ :=
  if endpoint then
    (List.range n).map (fun (i : ℕ) => a + (i : ℝ) * ((b - a) / ((n : ℝ) - 1)))
  else
    (List.range n).map (fun (i : ℕ) => a + (i : ℝ) * ((b - a) / (n : ℝ)))

/-- Indices of the entries of `xs` satisfying `p`, in increasing order:
the translation of `np.where(p(xs))[0]`. -/
def npwhere (xs : List ℝ) (p : ℝ → Prop) [DecidablePred p] : List ℕ :=
  (List.range xs.length).filter (fun i => decide (p (xs.getD i 0)))

/-- The translation of `np.where(p(xs))[0][0]` (first matching index);
`none` models the `IndexError` Python raises when no entry matches. -/
def npwhereFirst (xs : List ℝ) (p : ℝ → Prop) [DecidablePred p] : Option ℕ :=
  (npwhere xs p).head?

/-- The translation of `np.where(p(xs))[0][-1]` (last matching index);
`none` models the `IndexError` Python raises when no entry matches. -/
def npwhereLast (xs : List ℝ) (p : ℝ → Prop) [DecidablePred p] : Option ℕ :=
  (npwhere xs p).getLast?

/-- `np.roll(x, k)`: cyclic shift, `(np.roll x k)[i] = x[(i - k) mod n]`. -/
def nproll (x : List ℂ) (k : ℤ) : List ℂ :=
  (List.range x.length).map (fun (i : ℕ) => x.getD ((((i : ℤ) - k) % (x.length : ℤ)).toNat) 0)

/-- The discrete Fourier transform computed by `np.fft.fft`:
`X[k] = Σ_j x[j] · exp(-2πi·j·k/n)` (no normalization). -/
def dftL (x : List ℂ) : List ℂ :=
  (List.range x.length).map (fun (k : ℕ) =>
    ∑ j ∈ Finset.range x.length,
      x.getD j 0 * Complex.exp (-(2 * Real.pi * Complex.I) * j * k / x.length))

/-- The inverse discrete Fourier transform computed by `np.fft.ifft`:
`x[j] = (Σ_k X[k] · exp(2πi·j·k/n)) / n`. -/
def idftL (x : List ℂ) : List ℂ :=
  (List.range x.length).map (fun (j : ℕ) =>
    (∑ k ∈ Finset.range x.length,
      x.getD k 0 * Complex.exp ((2 * Real.pi * Complex.I) * j * k / x.length)) / x.length)

/-- The lexicographic order numpy uses when comparing complex numbers
(real part first, then imaginary part), as used by `np.clip` on a
complex array. -/
def npCpxLt (z w : ℂ) : Prop :=
  z.re < w.re ∨ (z.re = w.re ∧ z.im < w.im)

instance : DecidablePred fun zw : ℂ × ℂ => npCpxLt zw.1 zw.2 := fun _ =>
  by unfold npCpxLt; infer_instance

instance (z w : ℂ) : Decidable (npCpxLt z w) := by unfold npCpxLt; infer_instance

/-- `np.clip(z, 0.0, None)` on a complex entry. -/
def npclipLow (z : ℂ) : ℂ := if npCpxLt z 0 then 0 else z

/-- `np.clip(z, None, 0.0)` on a complex entry. -/
def npclipHigh (z : ℂ) : ℂ := if npCpxLt 0 z then 0 else z

/-- Causal direct-form FIR filtering, `scipy.signal.lfilter(b, 1, x)`:
`y[n] = Σ_{k ≤ min(n, K-1)} b[k]·x[n-k]`, output length = input length. -/
def lfilter (b : List ℝ) (x : List ℂ) : List ℂ :=
  (List.range x.length).map (fun n =>
    ∑ k ∈ Finset.range b.length,
      if k ≤ n then (b.getD k 0 : ℂ) * x.getD (n - k) 0 else 0)

/-- Modelled from the spec: `scipy.signal.firwin` (an external library,
not part of this repository) designs a Hamming-windowed sinc low-pass
kernel of length `numtaps` for cutoff `cutoff` at sampling rate `fs`,
normalized for unity DC gain (spec §4.5: "low-pass sinc kernel scaled to
cutoff, windowed by a Hamming window, normalized for unity DC ... gain").
Only the kernel length is relied upon by the claims. -/
def firwinLP (numtaps : ℕ) (cutoff fs : ℝ) : List ℝ :=
  let m : ℝ := ((numtaps : ℝ) - 1) / 2
  let raw : List ℝ := (List.range numtaps).map (fun (n : ℕ) =>
    (0.54 - 0.46 * Real.cos (2 * Real.pi * n / ((numtaps : ℝ) - 1))) *
      (if (n : ℝ) = m then 2 * cutoff / fs
       else Real.sin (2 * Real.pi * (cutoff / fs) * ((n : ℝ) - m)) / (Real.pi * ((n : ℝ) - m))))
  raw.map (fun v => v / (raw.sum))

/-- Modelled from the spec: `scipy.signal.firwin` with `pass_zero=False`
for a single cutoff (high-pass) is the spectral inversion of the
low-pass kernel. Only the kernel length matters for the claims. -/
def firwinHP (numtaps : ℕ) (cutoff fs : ℝ) : List ℝ :=
  List.zipWith (fun d l => d - l)
    ((List.range numtaps).map (fun (n : ℕ) => if (n : ℝ) = ((numtaps : ℝ) - 1) / 2 then 1 else 0))
    (firwinLP numtaps cutoff fs)

/-- Modelled from the spec: `scipy.signal.firwin` with a two-element
cutoff list and `pass_zero=False` (band-pass) is a difference of two
low-pass kernels. Only the kernel length matters for the claims. -/
def firwinBP (numtaps : ℕ) (low high fs : ℝ) : List ℝ :=
  List.zipWith (fun a b => a - b) (firwinLP numtaps high fs) (firwinLP numtaps low fs)

/-- Modelled from the spec: `scipy.signal.firwin` with a two-element
cutoff list and `pass_zero=True` (band-stop) is the spectral inversion
of the band-pass kernel. Only the kernel length matters for the claims. -/
def firwinBS (numtaps : ℕ) (low high fs : ℝ) : List ℝ :=
  List.zipWith (fun d b => d - b)
    ((List.range numtaps).map (fun (n : ℕ) => if (n : ℝ) = ((numtaps : ℝ) - 1) / 2 then 1 else 0))
    (firwinBP numtaps low high fs)

/-- Lines 523-529 of `WaveformProcessing.through`: the rebuilt spectrum
`np.hstack((zeros(low_cut), sp[low_cut:high_cut+1], zeros(L-high_cut-1)))`. -/
def throughSpectrum (sp : List ℂ) (low_cut high_cut L : ℕ) : List ℂ :=
  List.replicate low_cut (0 : ℂ) ++ pyslice sp low_cut (high_cut + 1) ++
    List.replicate (L - high_cut - 1) (0 : ℂ)

/-- Lines 561-567 of `WaveformProcessing.block`: the rebuilt spectrum
`np.hstack((sp[:low_cut], zeros(high_cut-low_cut+1), sp[high_cut+1:]))`. -/
def blockSpectrum (sp : List ℂ) (low_cut high_cut : ℕ) : List ℂ :=
  sp.take low_cut ++ List.replicate (high_cut + 1 - low_cut) (0 : ℂ) ++
    sp.drop (high_cut + 1)

/-- Python exceptions surfaced by the embedded operations. -/
inductive PyErr where
  | attributeError : PyErr
  | indexError : PyErr
  | valueError : PyErr
  | zeroDivisionError : PyErr
  deriving DecidableEq, Repr

/-- The mutable state of a `WaveformProcessing` instance (the spec's
`WaveformState`).  `spectrum_array`, `power_array_W` and
`power_array_dBm` are `Option`s because `__init__` assigns them only
when its `fourier_transform` flag is true; `none` models the attribute
not existing (reading it raises `AttributeError`). -/
structure State where
  minimum_value : ℝ
  sampling_rate : ℝ
  characteristic_impedance : ℝ
  length : ℕ
  length_roll : ℕ
  time_length : ℝ
  time_array : List ℝ
  frequency_array : List ℝ
  positive_frequency_array : List ℝ
  waveform_array : List ℂ
  spectrum_array : Option (List ℂ)
  power_array_W : Option (List ℝ)
  power_array_dBm : Option (List ℝ)

/-- Line 195-198 of `_set_power`:
`np.abs(spectrum_array ** 2.0) / characteristic_impedance`, the per-bin
powers of the centered spectrum. -/
def binPowers (sp : List ℂ) (Z : ℝ) : List ℝ :=
  sp.map (fun z => Complex.abs (z ^ 2) / Z)

/-- Lines 199-207 of `_set_power`: the one-sided fold
`np.hstack((P[length_roll], np.flip(P[:length_roll]) + P[length_roll+1 : L-(L+1)%2]))`.
The elementwise `+` of the two slices is `zipWith (+)`; numpy requires
equal operand lengths there, which holds whenever `P.length = L` and
`length_roll = (L-1)/2` with `L ≥ 1`. -/
def foldPower (P : List ℝ) (length_roll L : ℕ) : List ℝ :=
  P.getD length_roll 0 ::
    List.zipWith (· + ·) ((P.take length_roll).reverse)
      ((P.drop (length_roll + 1)).take (L - (L + 1) % 2 - (length_roll + 1)))

/-- Lines 208-210 of `_set_power`:
`10 * np.log10(np.clip(W * 1e3, minimum_value, None))`. -/
def toDBm (W : List ℝ) (minimum : ℝ) : List ℝ :=
  W.map (fun p => 10 * Real.logb 10 (max (p * 1e3) minimum))

/-- `WaveformProcessing._set_power` (lines 189-210): from the current
`spectrum_array` compute the per-bin powers, fold them into the
one-sided watts array and convert to dBm.  The scalar index
`P[length_roll]` raises `IndexError` when out of bounds; reading a
never-assigned `spectrum_array` raises `AttributeError`. -/
def _set_power (s : State) : Except PyErr State :=
  match s.spectrum_array with
  | none => .error .attributeError
  | some sp =>
    let P : List ℝ := binPowers sp s.characteristic_impedance
    if _h : s.length_roll < P.length then
      let W : List ℝ := foldPower P s.length_roll s.length
      .ok { s with
              power_array_W := some W
              power_array_dBm := some (toDBm W s.minimum_value) }
    else .error .indexError

/-- `WaveformProcessing.fourier_transform` (lines 380-386):
`spectrum_array = np.roll(np.fft.fft(waveform_array), length_roll) / length`,
then `_set_power()`.  `np.fft.fft` raises `ValueError` on an empty array. -/
def fourier_transform (s : State) : Except PyErr State :=
  if s.waveform_array.length = 0 then .error .valueError
  else
    _set_power { s with
      spectrum_array :=
        some ((nproll (dftL s.waveform_array) (s.length_roll : ℤ)).map
          (fun z => z / (s.length : ℂ))) }

/-- `WaveformProcessing.inverse_fourier_transform` (lines 388-393):
`waveform_array = length * np.fft.ifft(np.roll(spectrum_array, -length_roll))`.
`np.fft.ifft` raises `ValueError` on an empty array. -/
def inverse_fourier_transform (s : State) : Except PyErr State :=
  match s.spectrum_array with
  | none => .error .attributeError
  | some sp =>
    if sp.length = 0 then .error .valueError
    else
      .ok { s with
        waveform_array :=
          (idftL (nproll sp (-(s.length_roll : ℤ)))).map (fun z => (s.length : ℂ) * z) }

/-- The epilogue shared verbatim by `dc_block`, `through`, `block`,
`bpf` and `bsf` (e.g. lines 492-495): run the inverse transform when
`inverse_fourier` is set, then the forward transform when `fourier` is
set. -/
def postTransforms (s : State) (inverse_fourier fourier : Bool) : Except PyErr State := do
  let s2 ← if inverse_fourier then inverse_fourier_transform s else pure s
  if fourier then fourier_transform s2 else pure s2

/-- Lines 147-175 of `WaveformProcessing.__init__`: the attribute
assignments (scalars, axis arrays, waveform; `spectrum_array` and the
power arrays are not assigned here — they appear only when the
constructor's `fourier_transform` flag is set). -/
def initState (sampling_rate : ℝ) (waveform : List ℂ)
    (characteristic_impedance : ℝ) : State :=
  let L : ℕ := waveform.length
  let l_roll : ℕ := (L - 1) / 2
  let T : ℝ := (L : ℝ) / sampling_rate
  { minimum_value := 1e-20
    sampling_rate := sampling_rate
    characteristic_impedance := characteristic_impedance
    length := L
    length_roll := l_roll
    time_length := T
    time_array := linspace (-T / 2) (T / 2) L false
    frequency_array :=
      (linspace (-(l_roll : ℝ)) ((l_roll : ℝ) + (((L + 1) % 2 : ℕ) : ℝ)) L true).map
        (fun v => v * sampling_rate / (L : ℝ))
    positive_frequency_array :=
      (linspace 0 (l_roll : ℝ) (l_roll + 1) true).map
        (fun v => v * sampling_rate / (L : ℝ))
    waveform_array := waveform
    spectrum_array := none
    power_array_W := none
    power_array_dBm := none }

/-- `WaveformProcessing.__init__` (lines 138-177).  The constructor
performs no validation: the only ways it can fail are the
`ZeroDivisionError` from `time_length = length / sampling_rate` when
`sampling_rate = 0` and, when the `fourier_transform` flag is set, the
`ValueError` from `np.fft.fft` on an empty array. -/
def init (sampling_rate : ℝ) (waveform : List ℂ) (fourier : Bool)
    (characteristic_impedance : ℝ) : Except PyErr State :=
  if sampling_rate = 0 then .error .zeroDivisionError
  else
    if fourier then fourier_transform (initState sampling_rate waveform characteristic_impedance)
    else .ok (initState sampling_rate waveform characteristic_impedance)

/-- `WaveformProcessing._get_time_array_index` (lines 212-231):
`np.where(time_array >= time)[0][0]` when `over`, else
`np.where(time_array <= time)[0][-1]`. -/
def _get_time_array_index (s : State) (time : ℝ) (over : Bool) : Option ℕ :=
  if over then npwhereFirst s.time_array (fun x => time ≤ x)
  else npwhereLast s.time_array (fun x => x ≤ time)

/-- `WaveformProcessing._get_frequency_array_index` (lines 233-252). -/
def _get_frequency_array_index (s : State) (frequency : ℝ) (over : Bool) : Option ℕ :=
  if over then npwhereFirst s.frequency_array (fun x => frequency ≤ x)
  else npwhereLast s.frequency_array (fun x => x ≤ frequency)

/-- `WaveformProcessing._get_positive_frequency_array_index` (lines 254-273). -/
def _get_positive_frequency_array_index (s : State) (frequency : ℝ) (over : Bool) : Option ℕ :=
  if over then npwhereFirst s.positive_frequency_array (fun x => frequency ≤ x)
  else npwhereLast s.positive_frequency_array (fun x => x ≤ frequency)

/-- `WaveformProcessing.get_dc_voltage` (lines 305-312):
`return spectrum_array[length_roll]`. -/
def get_dc_voltage (s : State) : Except PyErr ℂ :=
  match s.spectrum_array with
  | none => .error .attributeError
  | some sp =>
    if h : s.length_roll < sp.length then .ok (sp.get ⟨s.length_roll, h⟩)
    else .error .indexError

/-- `WaveformProcessing.get_spectrum` (lines 335-351): locate the floor
index for `frequency`, then linearly interpolate
`(sp[p+1] - sp[p]) * (frequency - f[p]) / sampling_rate + sp[p]`.
Python evaluates the locator (line 348) before touching
`spectrum_array`, so an unmatched frequency raises `IndexError` even
when the spectrum attribute does not exist yet. -/
def get_spectrum (s : State) (frequency : ℝ) : Except PyErr ℂ :=
  match _get_frequency_array_index s frequency false with
  | none => .error .indexError
  | some point =>
    match s.spectrum_array with
    | none => .error .attributeError
    | some sp =>
      if h : point + 1 < sp.length then
        .ok ((sp.get ⟨point + 1, h⟩ - sp.get ⟨point, Nat.lt_of_succ_lt h⟩) *
              (frequency - s.frequency_array.getD point 0) / s.sampling_rate +
             sp.get ⟨point, Nat.lt_of_succ_lt h⟩)
      else .error .indexError

/-- `WaveformProcessing.get_power` (lines 353-378): locate the floor
index in the one-sided axis, interpolate in `power_array_W`, and when
`unit` is true convert with `10 * log10(power * 1e3)` — note the source
applies no `1e-20` floor here, unlike `_set_power`. -/
def get_power (s : State) (frequency : ℝ) (unit : Bool) : Except PyErr ℝ :=
  match _get_positive_frequency_array_index s frequency false with
  | none => .error .indexError
  | some point =>
    match s.power_array_W with
    | none => .error .attributeError
    | some W =>
      if h : point + 1 < W.length then
        let power : ℝ :=
          (W.get ⟨point + 1, h⟩ - W.get ⟨point, Nat.lt_of_succ_lt h⟩) *
              (frequency - s.positive_frequency_array.getD point 0) / s.sampling_rate +
            W.get ⟨point, Nat.lt_of_succ_lt h⟩
        if unit then .ok (10 * Real.logb 10 (power * 1e3)) else .ok power
      else .error .indexError

/-- Lines 404-426 of `WaveformProcessing.zerofill`: append `n` complex
zeros to `waveform_array` and recompute `length`, `length_roll`,
`time_length` and the three axis arrays exactly as `__init__` does. -/
def zerofillRebuild (s : State) (n : ℕ) : State :=
  let w : List ℂ := s.waveform_array ++ List.replicate n 0
  let L : ℕ := w.length
  let l_roll : ℕ := (L - 1) / 2
  let T : ℝ := (L : ℝ) / s.sampling_rate
  { s with
    waveform_array := w
    length := L
    length_roll := l_roll
    time_length := T
    time_array := linspace (-T / 2) (T / 2) L false
    frequency_array :=
      (linspace (-(l_roll : ℝ)) ((l_roll : ℝ) + (((L + 1) % 2 : ℕ) : ℝ)) L true).map
        (fun v => v * s.sampling_rate / (L : ℝ))
    positive_frequency_array :=
      (linspace 0 (l_roll : ℝ) (l_roll + 1) true).map
        (fun v => v * s.sampling_rate / (L : ℝ)) }

/-- `WaveformProcessing.zerofill` (lines 395-427): the rebuild above,
then unconditionally `fourier_transform()` (line 427). -/
def zerofill (s : State) (n : ℕ) : Except PyErr State :=
  fourier_transform (zerofillRebuild s n)

/-- `WaveformProcessing.hanning` (lines 429-441): multiply
`waveform_array` elementwise by `0.5 - 0.5*cos(2π·arange(length)/length)`
(computed in complex dtype, as the source does). -/
def hanning (s : State) : State :=
  { s with
    waveform_array :=
      List.zipWith (· * ·) s.waveform_array
        ((List.range s.length).map (fun (n : ℕ) =>
          (0.5 : ℂ) - 0.5 * Complex.cos (2 * Real.pi * n / (s.length : ℂ)))) }

/-- `WaveformProcessing.hamming` (lines 443-455): multiply
`waveform_array` elementwise by `0.54 - 0.46*cos(2π·arange(length)/length)`. -/
def hamming (s : State) : State :=
  { s with
    waveform_array :=
      List.zipWith (· * ·) s.waveform_array
        ((List.range s.length).map (fun (n : ℕ) =>
          (0.54 : ℂ) - 0.46 * Complex.cos (2 * Real.pi * n / (s.length : ℂ)))) }

/-- `WaveformProcessing.rectifire` (lines 457-475): clip the complex
waveform at zero (numpy compares complex numbers lexicographically),
then optionally re-run the forward transform (source default: on). -/
def rectifire (s : State) (polarization fourier : Bool) : Except PyErr State :=
  let s1 : State :=
    { s with
      waveform_array :=
        if polarization then s.waveform_array.map npclipLow
        else s.waveform_array.map npclipHigh }
  if fourier then fourier_transform s1 else .ok s1

/-- `WaveformProcessing.dc_block` (lines 477-495): the single in-place
mutation of the class, `spectrum_array[length_roll] = 0`, followed by
`_set_power()` and the optional transforms (defaults: inverse on,
forward off). -/
def dc_block (s : State) (inverse_fourier fourier : Bool) : Except PyErr State :=
  match s.spectrum_array with
  | none => .error .attributeError
  | some sp =>
    if s.length_roll < sp.length then do
      let s1 ← _set_power { s with spectrum_array := some (sp.set s.length_roll 0) }
      postTransforms s1 inverse_fourier fourier
    else .error .indexError

/-- `WaveformProcessing.through` (lines 497-534): locate the inclusive
cut points with a ceiling search on `low_frequency` and a floor search
on `high_frequency`, replace `spectrum_array` with
`hstack(zeros(low_cut), sp[low_cut:high_cut+1], zeros(length-high_cut-1))`,
recompute the power arrays and run the optional transforms. -/
def through (s : State) (low_frequency high_frequency : ℝ)
    (inverse_fourier fourier : Bool) : Except PyErr State :=
  match _get_frequency_array_index s low_frequency true with
  | none => .error .indexError
  | some low_cut =>
    match _get_frequency_array_index s high_frequency false with
    | none => .error .indexError
    | some high_cut =>
      match s.spectrum_array with
      | none => .error .attributeError
      | some sp => do
        let s1 : State :=
          { s with spectrum_array := some (throughSpectrum sp low_cut high_cut s.length) }
        let s2 ← _set_power s1
        postTransforms s2 inverse_fourier fourier

/-- `WaveformProcessing.block` (lines 536-572): replace
`spectrum_array` with
`hstack(sp[:low_cut], zeros(high_cut-low_cut+1), sp[high_cut+1:])`.
`np.zeros` raises `ValueError` when `high_cut - low_cut + 1 < 0`. -/
def block (s : State) (low_frequency high_frequency : ℝ)
    (inverse_fourier fourier : Bool) : Except PyErr State :=
  match _get_frequency_array_index s low_frequency true with
  | none => .error .indexError
  | some low_cut =>
    match _get_frequency_array_index s high_frequency false with
    | none => .error .indexError
    | some high_cut =>
      match s.spectrum_array with
      | none => .error .attributeError
      | some sp =>
        if high_cut + 1 < low_cut then .error .valueError
        else do
          let s1 : State :=
            { s with spectrum_array := some (blockSpectrum sp low_cut high_cut) }
          let s2 ← _set_power s1
          postTransforms s2 inverse_fourier fourier

/-- `WaveformProcessing.lpf` (lines 574-586):
`through(-frequency, frequency, inverse_fourier_transform)`. -/
def lpf (s : State) (frequency : ℝ) (inverse_fourier : Bool) : Except PyErr State :=
  through s (-frequency) frequency inverse_fourier false

/-- `WaveformProcessing.hpf` (lines 588-604):
`block(-f + 0.25·rate/length, f - 0.25·rate/length, inverse_fourier_transform)`. -/
def hpf (s : State) (frequency : ℝ) (inverse_fourier : Bool) : Except PyErr State :=
  block s (-frequency + 0.25 * s.sampling_rate / (s.length : ℝ))
    (frequency - 0.25 * s.sampling_rate / (s.length : ℝ)) inverse_fourier false

/-- `WaveformProcessing.bpf` (lines 606-634): `lpf(high)` then
`hpf(low)` with transforms deferred, then the optional transforms. -/
def bpf (s : State) (low_frequency high_frequency : ℝ)
    (inverse_fourier fourier : Bool) : Except PyErr State := do
  let s1 ← lpf s high_frequency false
  let s2 ← hpf s1 low_frequency false
  postTransforms s2 inverse_fourier fourier

/-- `WaveformProcessing.bsf` (lines 636-662): `lpf(low)` then
`hpf(high)` with transforms deferred, then the optional transforms. -/
def bsf (s : State) (low_frequency high_frequency : ℝ)
    (inverse_fourier fourier : Bool) : Except PyErr State := do
  let s1 ← lpf s low_frequency false
  let s2 ← hpf s1 high_frequency false
  postTransforms s2 inverse_fourier fourier

/-- `WaveformProcessing.fir_lpf` (lines 664-690): design a
Hamming-windowed kernel with `firwin` and apply it causally with
`lfilter`, then optionally re-run the forward transform. -/
def fir_lpf (s : State) (frequency : ℝ) (length_of_filter : ℕ)
    (fourier : Bool) : Except PyErr State :=
  let s1 : State :=
    { s with waveform_array := lfilter (firwinLP length_of_filter frequency s.sampling_rate) s.waveform_array }
  if fourier then fourier_transform s1 else .ok s1

/-- `WaveformProcessing.fir_hpf` (lines 692-718). -/
def fir_hpf (s : State) (frequency : ℝ) (length_of_filter : ℕ)
    (fourier : Bool) : Except PyErr State :=
  let s1 : State :=
    { s with waveform_array := lfilter (firwinHP length_of_filter frequency s.sampling_rate) s.waveform_array }
  if fourier then fourier_transform s1 else .ok s1

/-- `WaveformProcessing.fir_bpf` (lines 720-750). -/
def fir_bpf (s : State) (low_frequency high_frequency : ℝ) (length_of_filter : ℕ)
    (fourier : Bool) : Except PyErr State :=
  let s1 : State :=
    { s with waveform_array := lfilter (firwinBP length_of_filter low_frequency high_frequency s.sampling_rate) s.waveform_array }
  if fourier then fourier_transform s1 else .ok s1

/-- `WaveformProcessing.fir_bsf` (lines 752-782). -/
def fir_bsf (s : State) (low_frequency high_frequency : ℝ) (length_of_filter : ℕ)
    (fourier : Bool) : Except PyErr State :=
  let s1 : State :=
    { s with waveform_array := lfilter (firwinBS length_of_filter low_frequency high_frequency s.sampling_rate) s.waveform_array }
  if fourier then fourier_transform s1 else .ok s1

/-! ### Storage-level model of the spectrum zoom

`WaveformProcessing.zoom` (lines 784-832) assigns
`self.spectrum_array_zoom = self.spectrum_array[low_cut : high_cut+1]`.
numpy basic slicing returns a *view* into the parent buffer, not a copy.
Every operation of the class rebinds `self.spectrum_array` to a freshly
allocated array (`np.hstack`, `np.roll(np.fft.fft(...))`) — except
`dc_block` (line 490), which writes `spectrum_array[length_roll] = 0`
into the existing buffer in place.  To reason about what a previously
produced zoom observes, this fragment models buffers explicitly: a heap
of allocated complex buffers, the index of the buffer currently bound to
`spectrum_array`, and the zoom view as (buffer, start, stop). -/

/-- Heap-level state for `spectrum_array` and `spectrum_array_zoom`. -/
structure SpectrumMem where
  buffers : List (List ℂ)
  spec_buf : ℕ
  zoom_view : Option (ℕ × ℕ × ℕ)
  frequency_array : List ℝ
  length : ℕ
  length_roll : ℕ

/-- The contents `spectrum_array` currently denotes. -/
def SpectrumMem.spec (m : SpectrumMem) : List ℂ :=
  m.buffers.getD m.spec_buf []

/-- Reading `spectrum_array_zoom`: the view dereferences its buffer in
the *current* heap. -/
def SpectrumMem.readZoom (m : SpectrumMem) : Option (List ℂ) :=
  m.zoom_view.map (fun v => pyslice (m.buffers.getD v.1 []) v.2.1 v.2.2)

/-- The spectrum part of `WaveformProcessing.zoom` (lines 810-816):
locate the cut points in `frequency_array` and bind
`spectrum_array_zoom` to the slice `spectrum_array[low_cut:high_cut+1]`
— a view of the current spectrum buffer. -/
def SpectrumMem.zoomSpec (m : SpectrumMem) (low_frequency high_frequency : ℝ) :
    Except PyErr SpectrumMem :=
  match npwhereFirst m.frequency_array (fun x => low_frequency ≤ x) with
  | none => .error .indexError
  | some low_cut =>
    match npwhereLast m.frequency_array (fun x => x ≤ high_frequency) with
    | none => .error .indexError
    | some high_cut =>
      .ok { m with zoom_view := some (m.spec_buf, low_cut, high_cut + 1) }

/-- The spectrum mutation of `WaveformProcessing.dc_block` (line 490):
`spectrum_array[length_roll] = 0` writes into the buffer in place; no
new buffer is allocated, so views over this buffer observe the write. -/
def SpectrumMem.dcBlock (m : SpectrumMem) : SpectrumMem :=
  { m with buffers := m.buffers.set m.spec_buf (m.spec.set m.length_roll 0) }

/-- The spectrum mutation of `WaveformProcessing.through` (lines
521-529): `np.hstack` allocates a fresh buffer and `spectrum_array` is
rebound to it; existing buffers (and hence existing views) are
untouched. -/
def SpectrumMem.through (m : SpectrumMem) (low_frequency high_frequency : ℝ) :
    Except PyErr SpectrumMem :=
  match npwhereFirst m.frequency_array (fun x => low_frequency ≤ x) with
  | none => .error .indexError
  | some low_cut =>
    match npwhereLast m.frequency_array (fun x => x ≤ high_frequency) with
    | none => .error .indexError
    | some high_cut =>
      .ok { m with
            buffers := m.buffers ++
              [List.replicate low_cut (0 : ℂ) ++ pyslice m.spec low_cut (high_cut + 1) ++
                List.replicate (m.length - high_cut - 1) (0 : ℂ)]
            spec_buf := m.buffers.length }

/-- The §3 length invariants of the spec, together with the
`center_offset = (length - 1) / 2` bookkeeping that the constructor and
`zerofill` maintain: the four two-sided arrays have `length` entries and
the three one-sided arrays have `length_roll + 1` entries. -/
def Inv (s : State) : Prop :=
  s.time_array.length = s.length ∧
  s.frequency_array.length = s.length ∧
  s.waveform_array.length = s.length ∧
  (∃ sp, s.spectrum_array = some sp ∧ sp.length = s.length) ∧
  s.positive_frequency_array.length = s.length_roll + 1 ∧
  (∃ W, s.power_array_W = some W ∧ W.length = s.length_roll + 1) ∧
  (∃ D, s.power_array_dBm = some D ∧ D.length = s.length_roll + 1) ∧
  s.length_roll = (s.length - 1) / 2 ∧
  1 ≤ s.length

/-- A length-1 state as produced by `init 1 [1] true 50`: `time_array`,
`frequency_array`, `positive_frequency_array` and `spectrum_array` carry
the values the constructor computes for the waveform `[1]`. -/
def sOne : State :=
  { minimum_value := 1e-20
    sampling_rate := 1
    characteristic_impedance := 50
    length := 1
    length_roll := 0
    time_length := 1
    time_array := [-(1 : ℝ) / 2]
    frequency_array := [0]
    positive_frequency_array := [0]
    waveform_array := [1]
    spectrum_array := some [1]
    power_array_W := some [1 / 50]
    power_array_dBm := some [10 * Real.logb 10 (max ((1 / 50) * 1e3) 1e-20)] }

/-- A length-5 state with sampling rate 5: the axis arrays are exactly
those the constructor computes (`frequency_array = [-2,-1,0,1,2]`,
`positive_frequency_array = [0,1,2]`), the spectrum is the constant
list of ones. -/
def sFive : State :=
  { minimum_value := 1e-20
    sampling_rate := 5
    characteristic_impedance := 50
    length := 5
    length_roll := 2
    time_length := 1
    time_array := [-(1 : ℝ) / 2, -(3 : ℝ) / 10, -(1 : ℝ) / 10, (1 : ℝ) / 10, (3 : ℝ) / 10]
    frequency_array := [-2, -1, 0, 1, 2]
    positive_frequency_array := [0, 1, 2]
    waveform_array := [1, 1, 1, 1, 1]
    spectrum_array := some [1, 1, 1, 1, 1]
    power_array_W := some [0, 0, 0]
    power_array_dBm := some [0, 0, 0] }

/-- A heap state for the aliasing model: one buffer `[1, 1, 1]`, bound
to `spectrum_array`, no zoom yet; the frequency axis is the length-3
axis `[-1, 0, 1]` (sampling rate 3). -/
def mThree : SpectrumMem :=
  { buffers := [[1, 1, 1]]
    spec_buf := 0
    zoom_view := none
    frequency_array := [-1, 0, 1]
    length := 3
    length_roll := 1 }

/-! ### Characterization of `np.where(...)[0][0]` and `np.where(...)[0][-1]` -/

theorem mem_npwhere {xs : List ℝ} {p : ℝ → Prop} [DecidablePred p] {i : ℕ} :
    i ∈ npwhere xs p ↔ i < xs.length ∧ p (xs.getD i 0) := by
  simp [npwhere, List.mem_filter, List.mem_range]

theorem npwhere_sorted (xs : List ℝ) (p : ℝ → Prop) [DecidablePred p] :
    (npwhere xs p).Sorted (· < ·) :=
  (List.sorted_lt_range xs.length).filter _

theorem head?_mem_of_eq_some {l : List ℕ} {a : ℕ} (h : l.head? = some a) : a ∈ l := by
  cases l with
  | nil => simp at h
  | cons b t =>
    simp only [List.head?_cons, Option.some.injEq] at h
    exact h ▸ List.mem_cons_self b t

theorem head?_le_of_sorted {l : List ℕ} {a : ℕ} (hs : l.Sorted (· < ·))
    (h : l.head? = some a) : ∀ b ∈ l, a ≤ b := by
  cases l with
  | nil => simp at h
  | cons c t =>
    simp only [List.head?_cons, Option.some.injEq] at h
    subst h
    intro b hb
    rcases List.mem_cons.mp hb with rfl | hb
    · exact le_refl b
    · exact le_of_lt ((List.pairwise_cons.mp hs).1 b hb)

theorem getLast?_mem_of_eq_some {l : List ℕ} {a : ℕ} (h : l.getLast? = some a) : a ∈ l := by
  induction l with
  | nil => simp at h
  | cons b t ih =>
    cases t with
    | nil => simp only [List.getLast?_singleton, Option.some.injEq] at h; simp [h]
    | cons c u =>
      rw [List.getLast?_cons_cons] at h
      exact List.mem_cons_of_mem b (ih h)

theorem le_getLast?_of_sorted {l : List ℕ} {a : ℕ} (hs : l.Sorted (· < ·))
    (h : l.getLast? = some a) : ∀ b ∈ l, b ≤ a := by
  induction l with
  | nil => simp at h
  | cons c t ih =>
    cases t with
    | nil =>
      simp only [List.getLast?_singleton, Option.some.injEq] at h
      subst h; intro b hb; simp at hb; omega
    | cons d u =>
      rw [List.getLast?_cons_cons] at h
      intro b hb
      rcases List.mem_cons.mp hb with rfl | hb
      · have ha : a ∈ d :: u := getLast?_mem_of_eq_some h
        exact le_of_lt ((List.pairwise_cons.mp hs).1 a ha)
      · exact ih (List.Sorted.of_cons hs) h b hb

theorem npwhereFirst_eq_some {xs : List ℝ} {p : ℝ → Prop} [DecidablePred p] {i : ℕ}
    (h : npwhereFirst xs p = some i) :
    i < xs.length ∧ p (xs.getD i 0) ∧ ∀ j < i, ¬ p (xs.getD j 0) := by
  have hmem : i ∈ npwhere xs p := head?_mem_of_eq_some h
  have hin := mem_npwhere.mp hmem
  refine ⟨hin.1, hin.2, fun j hj hp => ?_⟩
  have hjmem : j ∈ npwhere xs p := mem_npwhere.mpr ⟨lt_trans hj hin.1, hp⟩
  have := head?_le_of_sorted (npwhere_sorted xs p) h j hjmem
  omega

theorem npwhereFirst_eq_none {xs : List ℝ} {p : ℝ → Prop} [DecidablePred p] :
    npwhereFirst xs p = none ↔ ∀ j < xs.length, ¬ p (xs.getD j 0) := by
  unfold npwhereFirst
  rw [List.head?_eq_none_iff, List.eq_nil_iff_forall_not_mem]
  constructor
  · intro h j hj hp
    exact h j (mem_npwhere.mpr ⟨hj, hp⟩)
  · intro h a ha
    have := mem_npwhere.mp ha
    exact h a this.1 this.2

theorem npwhereLast_eq_some {xs : List ℝ} {p : ℝ → Prop} [DecidablePred p] {i : ℕ}
    (h : npwhereLast xs p = some i) :
    i < xs.length ∧ p (xs.getD i 0) ∧ ∀ j, i < j → j < xs.length → ¬ p (xs.getD j 0) := by
  have hmem : i ∈ npwhere xs p := getLast?_mem_of_eq_some h
  have hin := mem_npwhere.mp hmem
  refine ⟨hin.1, hin.2, fun j hij hj hp => ?_⟩
  have hjmem : j ∈ npwhere xs p := mem_npwhere.mpr ⟨hj, hp⟩
  have := le_getLast?_of_sorted (npwhere_sorted xs p) h j hjmem
  omega

/-! ### Cyclic-shift (`np.roll`) lemmas -/

theorem nproll_length (x : List ℂ) (k : ℤ) : (nproll x k).length = x.length := by
  unfold nproll
  rw [List.length_map, List.length_range]

theorem nproll_getElem (x : List ℂ) (k : ℤ) (i : ℕ) (hi : i < (nproll x k).length) :
    (nproll x k)[i] = x.getD ((((i : ℤ) - k) % (x.length : ℤ)).toNat) 0 := by
  unfold nproll at hi ⊢
  rw [List.getElem_map, List.getElem_range]

theorem emod_toNat_lt (a : ℤ) (n : ℕ) (hn : 0 < n) : ((a % (n : ℤ)).toNat) < n := by
  have h1 : 0 ≤ a % (n : ℤ) := Int.emod_nonneg a (by exact_mod_cast hn.ne')
  have h2 : a % (n : ℤ) < n := Int.emod_lt_of_pos a (by exact_mod_cast hn)
  omega

theorem emod_shift_cancel (n i k : ℤ) (h0 : 0 ≤ i) (h1 : i < n) :
    ((i + k) % n - k) % n = i := by
  have h2 : ((i + k) % n - k) % n = ((i + k) - k) % n := by
    conv_rhs => rw [Int.sub_emod]
    rw [Int.sub_emod, Int.emod_emod_of_dvd _ dvd_rfl]
  rw [h2, add_sub_cancel_right, Int.emod_eq_of_lt h0 h1]

theorem nproll_cancel (x : List ℂ) (k : ℤ) : nproll (nproll x k) (-k) = x := by
  rcases Nat.eq_zero_or_pos x.length with h0 | hpos
  · rw [List.length_eq_zero] at h0
    simp [h0, nproll]
  · apply List.ext_getElem (by rw [nproll_length, nproll_length])
    intro i h1 h2
    rw [nproll_getElem _ _ _ h1, nproll_length, sub_neg_eq_add]
    have hjlt : ((((i : ℤ) + k) % (x.length : ℤ)).toNat) < x.length := emod_toNat_lt _ _ hpos
    rw [List.getD_eq_getElem _ 0 (by rw [nproll_length]; exact hjlt)]
    rw [nproll_getElem _ _ _ (by rw [nproll_length]; exact hjlt)]
    have hjcast : (((((i : ℤ) + k) % (x.length : ℤ)).toNat : ℤ)) = ((i : ℤ) + k) % (x.length : ℤ) :=
      Int.toNat_of_nonneg (Int.emod_nonneg _ (by exact_mod_cast hpos.ne'))
    rw [hjcast, emod_shift_cancel (x.length : ℤ) i k (by positivity) (by exact_mod_cast h2),
      Int.toNat_natCast, List.getD_eq_getElem _ 0 h2]

theorem nproll_map (x : List ℂ) (k : ℤ) (f : ℂ → ℂ) :
    nproll (x.map f) k = (nproll x k).map f := by
  rcases Nat.eq_zero_or_pos x.length with h0 | hpos
  · rw [List.length_eq_zero] at h0
    simp [h0, nproll]
  · apply List.ext_getElem (by rw [nproll_length, List.length_map, List.length_map,
      nproll_length])
    intro i h1 h2
    have hix : i < x.length := by
      have h3 := h1
      rw [nproll_length, List.length_map] at h3
      exact h3
    rw [nproll_getElem _ _ _ h1, List.length_map]
    have hm : ((((i : ℤ) - k) % (x.length : ℤ)).toNat) < x.length := emod_toNat_lt _ _ hpos
    rw [List.getD_eq_getElem _ 0 (by rw [List.length_map]; exact hm), List.getElem_map]
    rw [List.getElem_map, nproll_getElem _ _ _ (by rw [nproll_length]; exact hix)]
    rw [List.getD_eq_getElem _ 0 hm]

/-! ### Exact inversion of the discrete Fourier transform -/

theorem dftL_length (x : List ℂ) : (dftL x).length = x.length := by
  unfold dftL
  rw [List.length_map, List.length_range]

theorem idftL_length (x : List ℂ) : (idftL x).length = x.length := by
  unfold idftL
  rw [List.length_map, List.length_range]

theorem exp_sum_orthogonal (n : ℕ) (m : ℤ) (hn : n ≠ 0) :
    ∑ k ∈ Finset.range n, Complex.exp (2 * Real.pi * Complex.I * m * k / n) =
      if (n : ℤ) ∣ m then (n : ℂ) else 0 := by
  have hnc : (n : ℂ) ≠ 0 := Nat.cast_ne_zero.mpr hn
  by_cases hd : (n : ℤ) ∣ m
  · rw [if_pos hd]
    obtain ⟨q, hq⟩ := hd
    have hone : ∀ k ∈ Finset.range n,
        Complex.exp (2 * Real.pi * Complex.I * m * k / n) = 1 := by
      intro k _
      rw [Complex.exp_eq_one_iff]
      refine ⟨q * k, ?_⟩
      rw [hq]
      field_simp
      ring1
    rw [Finset.sum_congr rfl hone]
    simp
  · rw [if_neg hd]
    set r : ℂ := Complex.exp (2 * Real.pi * Complex.I * m / n) with hr
    have hterm : ∀ k ∈ Finset.range n,
        Complex.exp (2 * Real.pi * Complex.I * m * k / n) = r ^ k := by
      intro k _
      rw [hr, ← Complex.exp_nat_mul]
      congr 1
      ring1
    have hrn : r ^ n = 1 := by
      rw [hr, ← Complex.exp_nat_mul]
      have harg : (n : ℂ) * (2 * Real.pi * Complex.I * m / n) = (m : ℂ) * (2 * Real.pi * Complex.I) := by
        field_simp
        ring1
      rw [harg, Complex.exp_int_mul_two_pi_mul_I]
    have hr1 : r ≠ 1 := by
      intro habs
      rw [hr, Complex.exp_eq_one_iff] at habs
      obtain ⟨t, ht⟩ := habs
      apply hd
      refine ⟨t, ?_⟩
      have h2 : (2 * Real.pi * Complex.I) * (m : ℂ) = (2 * Real.pi * Complex.I) * ((n : ℂ) * t) := by
        have := ht
        field_simp at this
        linear_combination this
      have h3 : (m : ℂ) = ((n * t : ℤ) : ℂ) := by
        have := mul_left_cancel₀ Complex.two_pi_I_ne_zero h2
        push_cast
        exact this
      exact_mod_cast h3
    rw [Finset.sum_congr rfl hterm, geom_sum_eq hr1, hrn]
    simp

theorem dftL_getElem (x : List ℂ) (k : ℕ) (hk : k < (dftL x).length) :
    (dftL x)[k] = ∑ j ∈ Finset.range x.length,
      x.getD j 0 * Complex.exp (-(2 * Real.pi * Complex.I) * j * k / x.length) := by
  unfold dftL at hk ⊢
  rw [List.getElem_map, List.getElem_range]

theorem idftL_getElem (x : List ℂ) (j : ℕ) (hj : j < (idftL x).length) :
    (idftL x)[j] = (∑ k ∈ Finset.range x.length,
      x.getD k 0 * Complex.exp ((2 * Real.pi * Complex.I) * j * k / x.length)) / x.length := by
  unfold idftL at hj ⊢
  rw [List.getElem_map, List.getElem_range]

theorem idftL_dftL (x : List ℂ) : idftL (dftL x) = x := by
  rcases Nat.eq_zero_or_pos x.length with h0 | hpos
  · rw [List.length_eq_zero] at h0
    simp [h0, dftL, idftL]
  · have hn : (x.length : ℂ) ≠ 0 := by exact_mod_cast hpos.ne'
    apply List.ext_getElem (by rw [idftL_length, dftL_length])
    intro j hj hjx
    rw [idftL_getElem _ _ hj, dftL_length]
    have hsum : ∀ k ∈ Finset.range x.length,
        (dftL x).getD k 0 * Complex.exp ((2 * Real.pi * Complex.I) * j * k / x.length)
        = ∑ i ∈ Finset.range x.length,
            x.getD i 0 * Complex.exp (2 * Real.pi * Complex.I * ((j : ℂ) - (i : ℂ)) * k / x.length) := by
      intro k hk
      rw [Finset.mem_range] at hk
      rw [List.getD_eq_getElem _ 0 (by rw [dftL_length]; exact hk),
        dftL_getElem _ _ (by rw [dftL_length]; exact hk), Finset.sum_mul]
      refine Finset.sum_congr rfl (fun i _ => ?_)
      rw [mul_assoc, ← Complex.exp_add]
      congr 1
      ring_nf
    rw [Finset.sum_congr rfl hsum, Finset.sum_comm]
    have hcol : ∀ i ∈ Finset.range x.length,
        (∑ k ∈ Finset.range x.length,
          x.getD i 0 * Complex.exp (2 * Real.pi * Complex.I * ((j : ℂ) - (i : ℂ)) * k / x.length))
        = x.getD i 0 * (if (x.length : ℤ) ∣ ((j : ℤ) - i) then (x.length : ℂ) else 0) := by
      intro i _
      have horth := exp_sum_orthogonal x.length ((j : ℤ) - i) hpos.ne'
      push_cast at horth
      rw [← Finset.mul_sum, horth]
    rw [Finset.sum_congr rfl hcol]
    rw [Finset.sum_eq_single_of_mem j (Finset.mem_range.mpr hjx)
      (fun i hi hne => ?_)]
    · rw [if_pos (by simp), mul_div_assoc, div_self hn, mul_one,
        List.getD_eq_getElem _ 0 hjx]
    · rw [Finset.mem_range] at hi
      rw [if_neg, mul_zero]
      intro hdvd
      have h1 : ((j : ℤ) - i) ≠ 0 := by
        intro hz
        exact hne (by omega)
      have h2 : |((j : ℤ) - i)| < (x.length : ℤ) := by
        rw [abs_lt]
        omega
      exact h1 (Int.eq_zero_of_abs_lt_dvd hdvd h2)

theorem idftL_map_div (x : List ℂ) (c : ℂ) :
    idftL (x.map (fun z => z / c)) = (idftL x).map (fun z => z / c) := by
  apply List.ext_getElem (by rw [idftL_length, List.length_map, List.length_map, idftL_length])
  intro i h1 h2
  have hix : i < x.length := by
    have h3 := h1
    rw [idftL_length, List.length_map] at h3
    exact h3
  rw [idftL_getElem _ _ h1, List.length_map, List.getElem_map,
    idftL_getElem _ _ (by rw [idftL_length]; exact hix)]
  have hterm : ∀ k ∈ Finset.range x.length,
      (x.map (fun z => z / c)).getD k 0 *
          Complex.exp ((2 * Real.pi * Complex.I) * i * k / x.length)
        = (x.getD k 0 * Complex.exp ((2 * Real.pi * Complex.I) * i * k / x.length)) / c := by
    intro k hk
    rw [Finset.mem_range] at hk
    rw [List.getD_eq_getElem _ 0 (by rw [List.length_map]; exact hk), List.getElem_map,
      List.getD_eq_getElem _ 0 hk, div_mul_eq_mul_div]
  rw [Finset.sum_congr rfl hterm, ← Finset.sum_div, div_right_comm]

/-! ### Shape lemmas for the power derivation and the transforms -/

theorem binPowers_length (sp : List ℂ) (Z : ℝ) : (binPowers sp Z).length = sp.length := by
  unfold binPowers
  rw [List.length_map]

theorem foldPower_length (P : List ℝ) (m L : ℕ) (hP : L ≤ P.length) (hm : m = (L - 1) / 2)
    (hL : 1 ≤ L) : (foldPower P m L).length = m + 1 := by
  unfold foldPower
  rw [List.length_cons, List.length_zipWith, List.length_reverse, List.length_take,
    List.length_take, List.length_drop]
  omega

theorem toDBm_length (W : List ℝ) (mv : ℝ) : (toDBm W mv).length = W.length := by
  unfold toDBm
  rw [List.length_map]

theorem foldPower_getD_zero (P : List ℝ) (m L : ℕ) :
    (foldPower P m L).getD 0 0 = P.getD m 0 := by
  unfold foldPower
  rw [List.getD_cons_zero]

theorem foldPower_getD_succ (P : List ℝ) (m L k : ℕ) (hP : L ≤ P.length)
    (hm : m = (L - 1) / 2) (hL : 1 ≤ L) (hk1 : 1 ≤ k) (hk2 : k ≤ m) :
    (foldPower P m L).getD k 0 = P.getD (m - k) 0 + P.getD (m + k) 0 := by
  obtain ⟨k0, rfl⟩ : ∃ k0, k = k0 + 1 := ⟨k - 1, by omega⟩
  unfold foldPower
  rw [List.getD_cons_succ]
  have e1 : ((P.take m).reverse).getD k0 0 = P.getD (m - (k0 + 1)) 0 := by
    have hk0 : k0 < ((P.take m).reverse).length := by
      rw [List.length_reverse, List.length_take]
      omega
    have h3 : (P.take m).length - 1 - k0 < P.length := by
      rw [List.length_take]
      omega
    have hidx : (P.take m).length - 1 - k0 = m - (k0 + 1) := by
      rw [List.length_take]
      omega
    rw [List.getD_eq_getElem _ 0 hk0, List.getElem_reverse, List.getElem_take,
      ← List.getD_eq_getElem P 0 h3, hidx]
  have e2 : (((P.drop (m + 1)).take (L - (L + 1) % 2 - (m + 1)))).getD k0 0
      = P.getD (m + (k0 + 1)) 0 := by
    have hk0 : k0 < ((P.drop (m + 1)).take (L - (L + 1) % 2 - (m + 1))).length := by
      rw [List.length_take, List.length_drop]
      omega
    have h3 : m + 1 + k0 < P.length := by omega
    have hidx : m + 1 + k0 = m + (k0 + 1) := by omega
    rw [List.getD_eq_getElem _ 0 hk0, List.getElem_take, List.getElem_drop,
      ← List.getD_eq_getElem P 0 h3, hidx]
  have hz : k0 < (List.zipWith (· + ·) ((P.take m).reverse)
      ((P.drop (m + 1)).take (L - (L + 1) % 2 - (m + 1)))).length := by
    rw [List.length_zipWith, List.length_reverse, List.length_take, List.length_take,
      List.length_drop]
    omega
  have hza : k0 < ((P.take m).reverse).length := by
    rw [List.length_reverse, List.length_take]
    omega
  have hzb : k0 < ((P.drop (m + 1)).take (L - (L + 1) % 2 - (m + 1))).length := by
    rw [List.length_take, List.length_drop]
    omega
  rw [List.getD_eq_getElem _ 0 hz, List.getElem_zipWith,
    ← List.getD_eq_getElem _ 0 hza, ← List.getD_eq_getElem _ 0 hzb, e1, e2]

theorem _set_power_eq (s : State) (sp : List ℂ) (h : s.spectrum_array = some sp)
    (hlt : s.length_roll < sp.length) :
    _set_power s = .ok { s with
      power_array_W :=
        some (foldPower (binPowers sp s.characteristic_impedance) s.length_roll s.length)
      power_array_dBm :=
        some (toDBm (foldPower (binPowers sp s.characteristic_impedance) s.length_roll s.length)
          s.minimum_value) } := by
  simp only [_set_power, h]
  rw [dif_pos (by rw [binPowers_length]; exact hlt)]

theorem fourier_transform_ok (s : State) (hL : 1 ≤ s.length)
    (hw : s.waveform_array.length = s.length) (hlr : s.length_roll = (s.length - 1) / 2) :
    ∃ sf, fourier_transform s = .ok sf ∧
      sf.spectrum_array =
        some ((nproll (dftL s.waveform_array) (s.length_roll : ℤ)).map
          (fun z => z / (s.length : ℂ))) ∧
      sf.power_array_W =
        some (foldPower
          (binPowers
            ((nproll (dftL s.waveform_array) (s.length_roll : ℤ)).map
              (fun z => z / (s.length : ℂ)))
            s.characteristic_impedance) s.length_roll s.length) ∧
      sf.power_array_dBm =
        some (toDBm
          (foldPower
            (binPowers
              ((nproll (dftL s.waveform_array) (s.length_roll : ℤ)).map
                (fun z => z / (s.length : ℂ)))
              s.characteristic_impedance) s.length_roll s.length) s.minimum_value) ∧
      sf.waveform_array = s.waveform_array ∧ sf.length = s.length ∧
      sf.length_roll = s.length_roll ∧ sf.sampling_rate = s.sampling_rate ∧
      sf.characteristic_impedance = s.characteristic_impedance ∧
      sf.minimum_value = s.minimum_value ∧ sf.time_array = s.time_array ∧
      sf.frequency_array = s.frequency_array ∧
      sf.positive_frequency_array = s.positive_frequency_array := by
  have hspl : ((nproll (dftL s.waveform_array) (s.length_roll : ℤ)).map
      (fun z => z / (s.length : ℂ))).length = s.length := by
    rw [List.length_map, nproll_length, dftL_length, hw]
  unfold fourier_transform
  rw [if_neg (by omega)]
  rw [_set_power_eq _ _ rfl (by
    show s.length_roll < ((nproll (dftL s.waveform_array) (s.length_roll : ℤ)).map
      (fun z => z / (s.length : ℂ))).length
    rw [hspl]
    omega)]
  exact ⟨_, rfl, rfl, rfl, rfl, rfl, rfl, rfl, rfl, rfl, rfl, rfl, rfl, rfl⟩

theorem inverse_fourier_transform_ok (s : State) (sp : List ℂ)
    (h : s.spectrum_array = some sp) (hne : sp.length ≠ 0) :
    inverse_fourier_transform s = .ok { s with
      waveform_array :=
        (idftL (nproll sp (-(s.length_roll : ℤ)))).map (fun z => (s.length : ℂ) * z) } := by
  simp only [inverse_fourier_transform, h]
  rw [if_neg hne]

theorem npwhereLast_eq_none {xs : List ℝ} {p : ℝ → Prop} [DecidablePred p] :
    npwhereLast xs p = none ↔ ∀ j < xs.length, ¬ p (xs.getD j 0) := by
  unfold npwhereLast
  rw [List.getLast?_eq_none_iff, List.eq_nil_iff_forall_not_mem]
  constructor
  · intro h j hj hp
    exact h j (mem_npwhere.mpr ⟨hj, hp⟩)
  · intro h a ha
    have := mem_npwhere.mp ha
    exact h a this.1 this.2

theorem binPowers_getD (sp : List ℂ) (Z : ℝ) (i : ℕ) (h : i < sp.length) :
    (binPowers sp Z).getD i 0 = Complex.abs (sp.getD i 0 ^ 2) / Z := by
  unfold binPowers
  rw [List.getD_eq_getElem _ 0 (by rw [List.length_map]; exact h), List.getElem_map,
    ← List.getD_eq_getElem sp 0 h]

/-! ### Invariant preservation -/

theorem linspace_length (a b : ℝ) (n : ℕ) (e : Bool) : (linspace a b n e).length = n := by
  unfold linspace
  split <;> rw [List.length_map, List.length_range]

theorem pyslice_length (xs : List ℂ) (a b : ℕ) :
    (pyslice xs a b).length = min (b - a) (xs.length - a) := by
  unfold pyslice
  rw [List.length_take, List.length_drop]

theorem exceptBind_ok {α β : Type} (a : α) (f : α → Except PyErr β) :
    (Except.ok a : Except PyErr α) >>= f = f a := rfl

theorem Inv_fourier (s : State) (hInv : Inv s) :
    ∃ s2, fourier_transform s = .ok s2 ∧ Inv s2 ∧
      s2.length = s.length ∧ s2.length_roll = s.length_roll ∧
      s2.sampling_rate = s.sampling_rate ∧
      s2.time_array = s.time_array ∧ s2.frequency_array = s.frequency_array ∧
      s2.positive_frequency_array = s.positive_frequency_array ∧
      s2.waveform_array = s.waveform_array := by
  obtain ⟨hta, hfa, hwa, ⟨sp, hsp, hspl⟩, hpfl, ⟨W, hW, hWl⟩, ⟨D, hD, hDl⟩, hlr, hL⟩ := hInv
  obtain ⟨s2, hok, h1, h2, h3, h4, h5, h6, h7, h8, h9, h10, h11, h12⟩ :=
    fourier_transform_ok s hL hwa hlr
  have hspFl : ((nproll (dftL s.waveform_array) (s.length_roll : ℤ)).map
      (fun z => z / (s.length : ℂ))).length = s.length := by
    rw [List.length_map, nproll_length, dftL_length, hwa]
  have hPl : (binPowers ((nproll (dftL s.waveform_array) (s.length_roll : ℤ)).map
      (fun z => z / (s.length : ℂ))) s.characteristic_impedance).length = s.length := by
    rw [binPowers_length, hspFl]
  refine ⟨s2, hok, ?_, h5, h6, h7, h10, h11, h12, h4⟩
  refine ⟨?_, ?_, ?_, ⟨_, h1, ?_⟩, ?_, ⟨_, h2, ?_⟩, ⟨_, h3, ?_⟩, ?_, ?_⟩
  · rw [h10, h5, hta]
  · rw [h11, h5, hfa]
  · rw [h4, h5, hwa]
  · rw [hspFl, h5]
  · rw [h12, h6, hpfl]
  · rw [foldPower_length _ _ _ hPl.ge hlr hL, h6]
  · rw [toDBm_length, foldPower_length _ _ _ hPl.ge hlr hL, h6]
  · rw [h6, h5, hlr]
  · rw [h5]
    exact hL

theorem Inv_inverse (s : State) (hInv : Inv s) :
    ∃ s2, inverse_fourier_transform s = .ok s2 ∧ Inv s2 ∧
      s2.length = s.length ∧ s2.length_roll = s.length_roll ∧
      s2.sampling_rate = s.sampling_rate ∧
      s2.time_array = s.time_array ∧ s2.frequency_array = s.frequency_array ∧
      s2.positive_frequency_array = s.positive_frequency_array ∧
      s2.spectrum_array = s.spectrum_array := by
  obtain ⟨hta, hfa, hwa, ⟨sp, hsp, hspl⟩, hpfl, ⟨W, hW, hWl⟩, ⟨D, hD, hDl⟩, hlr, hL⟩ := hInv
  refine ⟨_, inverse_fourier_transform_ok s sp hsp (by omega), ?_, rfl, rfl, rfl, rfl, rfl,
    rfl, rfl⟩
  refine ⟨hta, hfa, ?_, ⟨sp, hsp, hspl⟩, hpfl, ⟨W, hW, hWl⟩, ⟨D, hD, hDl⟩, hlr, hL⟩
  show ((idftL (nproll sp (-(s.length_roll : ℤ)))).map (fun z => (s.length : ℂ) * z)).length
    = s.length
  rw [List.length_map, idftL_length, nproll_length, hspl]

theorem Inv_postTransforms (s : State) (hInv : Inv s) (ifft ft : Bool) :
    ∃ s2, postTransforms s ifft ft = .ok s2 ∧ Inv s2 ∧
      s2.length = s.length ∧ s2.length_roll = s.length_roll ∧
      s2.sampling_rate = s.sampling_rate ∧
      s2.time_array = s.time_array ∧ s2.frequency_array = s.frequency_array ∧
      s2.positive_frequency_array = s.positive_frequency_array := by
  cases ifft with
  | false =>
    cases ft with
    | false => exact ⟨s, rfl, hInv, rfl, rfl, rfl, rfl, rfl, rfl⟩
    | true =>
      obtain ⟨s2, hok, hI, h1, h2, h3, h4, h5, h6, _⟩ := Inv_fourier s hInv
      exact ⟨s2, hok, hI, h1, h2, h3, h4, h5, h6⟩
  | true =>
    obtain ⟨s1, hok1, hI1, h1, h2, h3, h4, h5, h6, _⟩ := Inv_inverse s hInv
    cases ft with
    | false =>
      refine ⟨s1, ?_, hI1, h1, h2, h3, h4, h5, h6⟩
      unfold postTransforms
      rw [if_pos rfl, hok1]
      rfl
    | true =>
      obtain ⟨s2, hok2, hI2, g1, g2, g3, g4, g5, g6, _⟩ := Inv_fourier s1 hI1
      refine ⟨s2, ?_, hI2, by rw [g1, h1], by rw [g2, h2], by rw [g3, h3],
        by rw [g4, h4], by rw [g5, h5], by rw [g6, h6]⟩
      unfold postTransforms
      rw [if_pos rfl, hok1, exceptBind_ok]
      show (if true = true then fourier_transform s1 else pure s1) = Except.ok s2
      rw [if_pos rfl, hok2]

theorem throughSpectrum_length (sp : List ℂ) (a b L : ℕ) :
    (throughSpectrum sp a b L).length =
      a + min (b + 1 - a) (sp.length - a) + (L - b - 1) := by
  unfold throughSpectrum
  rw [List.length_append, List.length_append, List.length_replicate, List.length_replicate,
    pyslice_length]

theorem blockSpectrum_length (sp : List ℂ) (a b : ℕ) :
    (blockSpectrum sp a b).length =
      min a sp.length + (b + 1 - a) + (sp.length - (b + 1)) := by
  unfold blockSpectrum
  rw [List.length_append, List.length_append, List.length_replicate, List.length_take,
    List.length_drop]

theorem locate_band_le {xs : List ℝ} {lf hf : ℝ} {a b : ℕ} (hle : lf ≤ hf)
    (ha : npwhereFirst xs (fun x => lf ≤ x) = some a)
    (hb : npwhereLast xs (fun x => x ≤ hf) = some b) : a ≤ b + 1 := by
  obtain ⟨ha1, _, ha3⟩ := npwhereFirst_eq_some ha
  obtain ⟨_, _, hb3⟩ := npwhereLast_eq_some hb
  by_contra h
  have h4 : ¬ lf ≤ xs.getD (b + 1) 0 := ha3 (b + 1) (by omega)
  have h5 : ¬ xs.getD (b + 1) 0 ≤ hf := hb3 (b + 1) (by omega) (by omega)
  push_neg at h4 h5
  linarith

theorem freq_locate_congr (s1 s : State) (h : s1.frequency_array = s.frequency_array)
    (x : ℝ) (o : Bool) :
    _get_frequency_array_index s1 x o = _get_frequency_array_index s x o := by
  unfold _get_frequency_array_index
  rw [h]

theorem through_core (s : State) (lf hf : ℝ) (sp : List ℂ) (a b : ℕ)
    (hsp : s.spectrum_array = some sp) (hspl : sp.length = s.length)
    (hla : _get_frequency_array_index s lf true = some a)
    (hlb : _get_frequency_array_index s hf false = some b)
    (hlr : s.length_roll = (s.length - 1) / 2) (hL : 1 ≤ s.length)
    (hfl : s.frequency_array.length = s.length) (ifft ft : Bool) :
    through s lf hf ifft ft =
      postTransforms
        { s with
          spectrum_array := some (throughSpectrum sp a b s.length)
          power_array_W := some (foldPower (binPowers (throughSpectrum sp a b s.length)
            s.characteristic_impedance) s.length_roll s.length)
          power_array_dBm := some (toDBm (foldPower
            (binPowers (throughSpectrum sp a b s.length) s.characteristic_impedance)
            s.length_roll s.length) s.minimum_value) } ifft ft := by
  have haL : a < s.length := by
    have h1 := (npwhereFirst_eq_some (show npwhereFirst s.frequency_array
      (fun x => lf ≤ x) = some a from hla)).1
    omega
  have hbL : b < s.length := by
    have h1 := (npwhereLast_eq_some (show npwhereLast s.frequency_array
      (fun x => x ≤ hf) = some b from hlb)).1
    omega
  have hT : s.length ≤ (throughSpectrum sp a b s.length).length := by
    rw [throughSpectrum_length]
    omega
  simp only [through, hla, hlb, hsp]
  rw [_set_power_eq _ _ rfl (by
    show s.length_roll < (throughSpectrum sp a b s.length).length
    omega)]
  rfl

theorem block_core (s : State) (lf hf : ℝ) (sp : List ℂ) (a b : ℕ)
    (hsp : s.spectrum_array = some sp) (hspl : sp.length = s.length)
    (hla : _get_frequency_array_index s lf true = some a)
    (hlb : _get_frequency_array_index s hf false = some b)
    (hlr : s.length_roll = (s.length - 1) / 2) (hL : 1 ≤ s.length)
    (hfl : s.frequency_array.length = s.length) (hab : a ≤ b + 1) (ifft ft : Bool) :
    block s lf hf ifft ft =
      postTransforms
        { s with
          spectrum_array := some (blockSpectrum sp a b)
          power_array_W := some (foldPower (binPowers (blockSpectrum sp a b)
            s.characteristic_impedance) s.length_roll s.length)
          power_array_dBm := some (toDBm (foldPower
            (binPowers (blockSpectrum sp a b) s.characteristic_impedance)
            s.length_roll s.length) s.minimum_value) } ifft ft := by
  have haL : a < s.length := by
    have h1 := (npwhereFirst_eq_some (show npwhereFirst s.frequency_array
      (fun x => lf ≤ x) = some a from hla)).1
    omega
  have hbL : b < s.length := by
    have h1 := (npwhereLast_eq_some (show npwhereLast s.frequency_array
      (fun x => x ≤ hf) = some b from hlb)).1
    omega
  have hT : s.length ≤ (blockSpectrum sp a b).length := by
    rw [blockSpectrum_length]
    omega
  simp only [block, hla, hlb, hsp]
  rw [if_neg (by omega)]
  rw [_set_power_eq _ _ rfl (by
    show s.length_roll < (blockSpectrum sp a b).length
    omega)]
  rfl

theorem Inv_through (s : State) (lf hf : ℝ) (sp : List ℂ) (a b : ℕ)
    (hInv : Inv s) (hsp : s.spectrum_array = some sp)
    (hla : _get_frequency_array_index s lf true = some a)
    (hlb : _get_frequency_array_index s hf false = some b)
    (hab : a ≤ b + 1) (ifft ft : Bool) :
    ∃ s2, through s lf hf ifft ft = .ok s2 ∧ Inv s2 ∧
      s2.length = s.length ∧ s2.length_roll = s.length_roll ∧
      s2.sampling_rate = s.sampling_rate ∧ s2.time_array = s.time_array ∧
      s2.frequency_array = s.frequency_array ∧
      s2.positive_frequency_array = s.positive_frequency_array := by
  obtain ⟨hta, hfa, hwa, ⟨sp0, hsp0, hspl0⟩, hpfl, ⟨W, hW, hWl⟩, ⟨D, hD, hDl⟩, hlr, hL⟩ := hInv
  have hspl : sp.length = s.length := by
    rw [hsp] at hsp0
    injection hsp0 with e
    rw [e]
    exact hspl0
  have haL : a < s.length := by
    have h1 := (npwhereFirst_eq_some (show npwhereFirst s.frequency_array
      (fun x => lf ≤ x) = some a from hla)).1
    omega
  have hbL : b < s.length := by
    have h1 := (npwhereLast_eq_some (show npwhereLast s.frequency_array
      (fun x => x ≤ hf) = some b from hlb)).1
    omega
  have hTeq : (throughSpectrum sp a b s.length).length = s.length := by
    rw [throughSpectrum_length]
    omega
  have hPle : s.length ≤ (binPowers (throughSpectrum sp a b s.length)
      s.characteristic_impedance).length := by
    rw [binPowers_length, hTeq]
  have hmidInv : Inv { s with
      spectrum_array := some (throughSpectrum sp a b s.length)
      power_array_W := some (foldPower (binPowers (throughSpectrum sp a b s.length)
        s.characteristic_impedance) s.length_roll s.length)
      power_array_dBm := some (toDBm (foldPower
        (binPowers (throughSpectrum sp a b s.length) s.characteristic_impedance)
        s.length_roll s.length) s.minimum_value) } := by
    refine ⟨hta, hfa, hwa, ⟨_, rfl, hTeq⟩, hpfl, ⟨_, rfl, ?_⟩, ⟨_, rfl, ?_⟩, hlr, hL⟩
    · exact foldPower_length _ _ _ hPle hlr hL
    · rw [toDBm_length]
      exact foldPower_length _ _ _ hPle hlr hL
  obtain ⟨s2, hok, hI, k1, k2, k3, k4, k5, k6⟩ := Inv_postTransforms _ hmidInv ifft ft
  refine ⟨s2, ?_, hI, k1, k2, k3, k4, k5, k6⟩
  rw [through_core s lf hf sp a b hsp hspl hla hlb hlr hL hfa ifft ft]
  exact hok

theorem Inv_block (s : State) (lf hf : ℝ) (sp : List ℂ) (a b : ℕ)
    (hInv : Inv s) (hsp : s.spectrum_array = some sp)
    (hla : _get_frequency_array_index s lf true = some a)
    (hlb : _get_frequency_array_index s hf false = some b)
    (hab : a ≤ b + 1) (ifft ft : Bool) :
    ∃ s2, block s lf hf ifft ft = .ok s2 ∧ Inv s2 ∧
      s2.length = s.length ∧ s2.length_roll = s.length_roll ∧
      s2.sampling_rate = s.sampling_rate ∧ s2.time_array = s.time_array ∧
      s2.frequency_array = s.frequency_array ∧
      s2.positive_frequency_array = s.positive_frequency_array := by
  obtain ⟨hta, hfa, hwa, ⟨sp0, hsp0, hspl0⟩, hpfl, ⟨W, hW, hWl⟩, ⟨D, hD, hDl⟩, hlr, hL⟩ := hInv
  have hspl : sp.length = s.length := by
    rw [hsp] at hsp0
    injection hsp0 with e
    rw [e]
    exact hspl0
  have haL : a < s.length := by
    have h1 := (npwhereFirst_eq_some (show npwhereFirst s.frequency_array
      (fun x => lf ≤ x) = some a from hla)).1
    omega
  have hbL : b < s.length := by
    have h1 := (npwhereLast_eq_some (show npwhereLast s.frequency_array
      (fun x => x ≤ hf) = some b from hlb)).1
    omega
  have hTeq : (blockSpectrum sp a b).length = s.length := by
    rw [blockSpectrum_length]
    omega
  have hPle : s.length ≤ (binPowers (blockSpectrum sp a b)
      s.characteristic_impedance).length := by
    rw [binPowers_length, hTeq]
  have hmidInv : Inv { s with
      spectrum_array := some (blockSpectrum sp a b)
      power_array_W := some (foldPower (binPowers (blockSpectrum sp a b)
        s.characteristic_impedance) s.length_roll s.length)
      power_array_dBm := some (toDBm (foldPower
        (binPowers (blockSpectrum sp a b) s.characteristic_impedance)
        s.length_roll s.length) s.minimum_value) } := by
    refine ⟨hta, hfa, hwa, ⟨_, rfl, hTeq⟩, hpfl, ⟨_, rfl, ?_⟩, ⟨_, rfl, ?_⟩, hlr, hL⟩
    · exact foldPower_length _ _ _ hPle hlr hL
    · rw [toDBm_length]
      exact foldPower_length _ _ _ hPle hlr hL
  obtain ⟨s2, hok, hI, k1, k2, k3, k4, k5, k6⟩ := Inv_postTransforms _ hmidInv ifft ft
  refine ⟨s2, ?_, hI, k1, k2, k3, k4, k5, k6⟩
  rw [block_core s lf hf sp a b hsp hspl hla hlb hlr hL hfa hab ifft ft]
  exact hok

theorem through_spectrum_after (s : State) (lf hf : ℝ) (sp : List ℂ) (a b : ℕ)
    (hsp : s.spectrum_array = some sp) (hspl : sp.length = s.length)
    (hla : _get_frequency_array_index s lf true = some a)
    (hlb : _get_frequency_array_index s hf false = some b)
    (hlr : s.length_roll = (s.length - 1) / 2) (hL : 1 ≤ s.length)
    (hfl : s.frequency_array.length = s.length) (ifft : Bool) :
    ∃ s2, through s lf hf ifft false = .ok s2 ∧
      s2.spectrum_array = some (throughSpectrum sp a b s.length) ∧
      s2.length = s.length := by
  rw [through_core s lf hf sp a b hsp hspl hla hlb hlr hL hfl ifft false]
  cases ifft with
  | false =>
    exact ⟨{ s with
        spectrum_array := some (throughSpectrum sp a b s.length)
        power_array_W := some (foldPower (binPowers (throughSpectrum sp a b s.length)
          s.characteristic_impedance) s.length_roll s.length)
        power_array_dBm := some (toDBm (foldPower
          (binPowers (throughSpectrum sp a b s.length) s.characteristic_impedance)
          s.length_roll s.length) s.minimum_value) },
      rfl, rfl, rfl⟩
  | true =>
    have haL : a < s.length := by
      have h1 := (npwhereFirst_eq_some (show npwhereFirst s.frequency_array
        (fun x => lf ≤ x) = some a from hla)).1
      omega
    have hbL : b < s.length := by
      have h1 := (npwhereLast_eq_some (show npwhereLast s.frequency_array
        (fun x => x ≤ hf) = some b from hlb)).1
      omega
    have hne : (throughSpectrum sp a b s.length).length ≠ 0 := by
      rw [throughSpectrum_length]
      omega
    refine ⟨{ s with
        spectrum_array := some (throughSpectrum sp a b s.length)
        power_array_W := some (foldPower (binPowers (throughSpectrum sp a b s.length)
          s.characteristic_impedance) s.length_roll s.length)
        power_array_dBm := some (toDBm (foldPower
          (binPowers (throughSpectrum sp a b s.length) s.characteristic_impedance)
          s.length_roll s.length) s.minimum_value)
        waveform_array := (idftL (nproll (throughSpectrum sp a b s.length)
          (-(s.length_roll : ℤ)))).map (fun z => (s.length : ℂ) * z) }, ?_, rfl, rfl⟩
    unfold postTransforms
    rw [if_pos rfl, inverse_fourier_transform_ok _ _ rfl hne, exceptBind_ok]
    rfl

theorem spec_band_getD (sp : List ℂ) (L a b : ℕ) (hspl : sp.length = L) (haL : a < L)
    (hbL : b < L) (hab : a ≤ b + 1) (i : ℕ) (hi : i < L) :
    (throughSpectrum sp a b L).getD i 0 = if a ≤ i ∧ i ≤ b then sp.getD i 0 else 0 := by
  unfold throughSpectrum
  have hSl : (pyslice sp a (b + 1)).length = b + 1 - a := by
    rw [pyslice_length]
    omega
  rcases Nat.lt_or_ge i a with hia | hia
  · rw [List.getD_append _ _ 0 i (by
      rw [List.length_append, List.length_replicate, hSl]
      omega)]
    rw [List.getD_append _ _ 0 i (by rw [List.length_replicate]; omega)]
    rw [if_neg (by omega)]
    rw [List.getD_eq_getElem _ 0 (by rw [List.length_replicate]; omega),
      List.getElem_replicate]
  · rcases Nat.lt_or_ge b i with hbi | hbi
    · rw [List.getD_append_right _ _ 0 i (by
        rw [List.length_append, List.length_replicate, hSl]
        omega)]
      rw [if_neg (by omega)]
      rw [List.getD_eq_getElem _ 0 (by
        rw [List.length_append, List.length_replicate, hSl, List.length_replicate]
        omega), List.getElem_replicate]
    · rw [List.getD_append _ _ 0 i (by
        rw [List.length_append, List.length_replicate, hSl]
        omega)]
      rw [List.getD_append_right _ _ 0 i (by rw [List.length_replicate]; omega)]
      rw [if_pos ⟨hia, hbi⟩, List.length_replicate]
      unfold pyslice
      have hlt : i - a < ((sp.drop a).take (b + 1 - a)).length := by
        rw [List.length_take, List.length_drop]
        omega
      rw [List.getD_eq_getElem _ 0 hlt, List.getElem_take, List.getElem_drop,
        ← List.getD_eq_getElem sp 0 (by omega)]
      congr 1
      omega

theorem lfilter_length (b : List ℝ) (x : List ℂ) : (lfilter b x).length = x.length := by
  unfold lfilter
  rw [List.length_map, List.length_range]

theorem Inv_initState (rate : ℝ) (w : List ℂ) (Z : ℝ) (hw : 1 ≤ w.length) :
    ∃ s2, fourier_transform (initState rate w Z) = .ok s2 ∧ Inv s2 ∧
      s2.length = w.length ∧ s2.length_roll = (w.length - 1) / 2 := by
  obtain ⟨s2, hok, h1, h2, h3, h4, h5, h6, h7, h8, h9, h10, h11, h12⟩ :=
    fourier_transform_ok (initState rate w Z) hw rfl rfl
  have hspl : ((nproll (dftL ((initState rate w Z).waveform_array))
      (((initState rate w Z).length_roll : ℕ) : ℤ)).map
      (fun z => z / (((initState rate w Z).length : ℕ) : ℂ))).length = w.length := by
    rw [List.length_map, nproll_length, dftL_length]
    rfl
  have ht : (initState rate w Z).time_array.length = w.length := by
    simp only [initState]
    rw [linspace_length]
  have hf : (initState rate w Z).frequency_array.length = w.length := by
    simp only [initState]
    rw [List.length_map, linspace_length]
  have hp : (initState rate w Z).positive_frequency_array.length
      = (w.length - 1) / 2 + 1 := by
    simp only [initState]
    rw [List.length_map, linspace_length]
  refine ⟨s2, hok, ?_, by rw [h5]; rfl, by rw [h6]; rfl⟩
  refine ⟨?_, ?_, ?_, ⟨_, h1, ?_⟩, ?_, ⟨_, h2, ?_⟩, ⟨_, h3, ?_⟩, ?_, ?_⟩
  · rw [h10, h5, ht]
    rfl
  · rw [h11, h5, hf]
    rfl
  · rw [h4, h5]
    rfl
  · rw [hspl, h5]
    rfl
  · rw [h12, h6, hp]
    rfl
  · rw [h6]
    refine foldPower_length _ _ _ ?_ rfl hw
    rw [binPowers_length]
    exact hspl.ge
  · rw [h6, toDBm_length]
    refine foldPower_length _ _ _ ?_ rfl hw
    rw [binPowers_length]
    exact hspl.ge
  · rw [h6, h5]
    rfl
  · rw [h5]
    exact hw

theorem Inv_init (rate : ℝ) (w : List ℂ) (Z : ℝ) (hr : rate ≠ 0) (hw : 1 ≤ w.length) :
    ∃ s, init rate w true Z = .ok s ∧ Inv s := by
  obtain ⟨s2, hok, hI, _⟩ := Inv_initState rate w Z hw
  refine ⟨s2, ?_, hI⟩
  simp only [init]
  rw [if_neg hr]
  exact hok

theorem Inv_hanning (s : State) (hInv : Inv s) : Inv (hanning s) := by
  obtain ⟨hta, hfa, hwa, hsp', hpfl, hW', hD', hlr, hL⟩ := hInv
  refine ⟨hta, hfa, ?_, hsp', hpfl, hW', hD', hlr, hL⟩
  show (List.zipWith (· * ·) s.waveform_array _).length = s.length
  rw [List.length_zipWith, List.length_map, List.length_range, hwa]
  omega

theorem Inv_hamming (s : State) (hInv : Inv s) : Inv (hamming s) := by
  obtain ⟨hta, hfa, hwa, hsp', hpfl, hW', hD', hlr, hL⟩ := hInv
  refine ⟨hta, hfa, ?_, hsp', hpfl, hW', hD', hlr, hL⟩
  show (List.zipWith (· * ·) s.waveform_array _).length = s.length
  rw [List.length_zipWith, List.length_map, List.length_range, hwa]
  omega

theorem Inv_rectifire (s : State) (hInv : Inv s) (pol ft : Bool) :
    ∃ s2, rectifire s pol ft = .ok s2 ∧ Inv s2 := by
  obtain ⟨hta, hfa, hwa, hsp', hpfl, hW', hD', hlr, hL⟩ := hInv
  have hInv1 : Inv { s with waveform_array :=
      if pol then s.waveform_array.map npclipLow else s.waveform_array.map npclipHigh } := by
    refine ⟨hta, hfa, ?_, hsp', hpfl, hW', hD', hlr, hL⟩
    show (if pol then s.waveform_array.map npclipLow
      else s.waveform_array.map npclipHigh).length = s.length
    cases pol
    · show (s.waveform_array.map npclipHigh).length = s.length
      rw [List.length_map, hwa]
    · show (s.waveform_array.map npclipLow).length = s.length
      rw [List.length_map, hwa]
  cases ft
  · exact ⟨_, rfl, hInv1⟩
  · obtain ⟨s2, hok, hI, _⟩ := Inv_fourier _ hInv1
    exact ⟨s2, hok, hI⟩

theorem Inv_fir_lpf (s : State) (hInv : Inv s) (f : ℝ) (nt : ℕ) (ft : Bool) :
    ∃ s2, fir_lpf s f nt ft = .ok s2 ∧ Inv s2 := by
  obtain ⟨hta, hfa, hwa, hsp', hpfl, hW', hD', hlr, hL⟩ := hInv
  have hInv1 : Inv { s with
      waveform_array := lfilter (firwinLP nt f s.sampling_rate) s.waveform_array } :=
    ⟨hta, hfa, by show (lfilter _ _).length = s.length; rw [lfilter_length, hwa],
      hsp', hpfl, hW', hD', hlr, hL⟩
  cases ft
  · exact ⟨_, rfl, hInv1⟩
  · obtain ⟨s2, hok, hI, _⟩ := Inv_fourier _ hInv1
    exact ⟨s2, hok, hI⟩

theorem Inv_fir_hpf (s : State) (hInv : Inv s) (f : ℝ) (nt : ℕ) (ft : Bool) :
    ∃ s2, fir_hpf s f nt ft = .ok s2 ∧ Inv s2 := by
  obtain ⟨hta, hfa, hwa, hsp', hpfl, hW', hD', hlr, hL⟩ := hInv
  have hInv1 : Inv { s with
      waveform_array := lfilter (firwinHP nt f s.sampling_rate) s.waveform_array } :=
    ⟨hta, hfa, by show (lfilter _ _).length = s.length; rw [lfilter_length, hwa],
      hsp', hpfl, hW', hD', hlr, hL⟩
  cases ft
  · exact ⟨_, rfl, hInv1⟩
  · obtain ⟨s2, hok, hI, _⟩ := Inv_fourier _ hInv1
    exact ⟨s2, hok, hI⟩

theorem Inv_fir_bpf (s : State) (hInv : Inv s) (lf hf : ℝ) (nt : ℕ) (ft : Bool) :
    ∃ s2, fir_bpf s lf hf nt ft = .ok s2 ∧ Inv s2 := by
  obtain ⟨hta, hfa, hwa, hsp', hpfl, hW', hD', hlr, hL⟩ := hInv
  have hInv1 : Inv { s with
      waveform_array := lfilter (firwinBP nt lf hf s.sampling_rate) s.waveform_array } :=
    ⟨hta, hfa, by show (lfilter _ _).length = s.length; rw [lfilter_length, hwa],
      hsp', hpfl, hW', hD', hlr, hL⟩
  cases ft
  · exact ⟨_, rfl, hInv1⟩
  · obtain ⟨s2, hok, hI, _⟩ := Inv_fourier _ hInv1
    exact ⟨s2, hok, hI⟩

theorem Inv_fir_bsf (s : State) (hInv : Inv s) (lf hf : ℝ) (nt : ℕ) (ft : Bool) :
    ∃ s2, fir_bsf s lf hf nt ft = .ok s2 ∧ Inv s2 := by
  obtain ⟨hta, hfa, hwa, hsp', hpfl, hW', hD', hlr, hL⟩ := hInv
  have hInv1 : Inv { s with
      waveform_array := lfilter (firwinBS nt lf hf s.sampling_rate) s.waveform_array } :=
    ⟨hta, hfa, by show (lfilter _ _).length = s.length; rw [lfilter_length, hwa],
      hsp', hpfl, hW', hD', hlr, hL⟩
  cases ft
  · exact ⟨_, rfl, hInv1⟩
  · obtain ⟨s2, hok, hI, _⟩ := Inv_fourier _ hInv1
    exact ⟨s2, hok, hI⟩

theorem Inv_dc_block (s : State) (hInv : Inv s) (ifft ft : Bool) :
    ∃ s2, dc_block s ifft ft = .ok s2 ∧ Inv s2 := by
  obtain ⟨hta, hfa, hwa, ⟨sp, hsp, hspl⟩, hpfl, ⟨W, hW, hWl⟩, ⟨D, hD, hDl⟩, hlr, hL⟩ := hInv
  have hsetl : (sp.set s.length_roll 0).length = s.length := by
    rw [List.length_set, hspl]
  have hguard : s.length_roll < (sp.set s.length_roll 0).length := by omega
  have hPle : s.length ≤ (binPowers (sp.set s.length_roll 0)
      s.characteristic_impedance).length := by
    rw [binPowers_length, hsetl]
  have hmidInv : Inv { s with
      spectrum_array := some (sp.set s.length_roll 0)
      power_array_W := some (foldPower (binPowers (sp.set s.length_roll 0)
        s.characteristic_impedance) s.length_roll s.length)
      power_array_dBm := some (toDBm (foldPower
        (binPowers (sp.set s.length_roll 0) s.characteristic_impedance)
        s.length_roll s.length) s.minimum_value) } := by
    refine ⟨hta, hfa, hwa, ⟨_, rfl, hsetl⟩, hpfl, ⟨_, rfl, ?_⟩, ⟨_, rfl, ?_⟩, hlr, hL⟩
    · exact foldPower_length _ _ _ hPle hlr hL
    · rw [toDBm_length]
      exact foldPower_length _ _ _ hPle hlr hL
  obtain ⟨s2, hok, hI, _⟩ := Inv_postTransforms _ hmidInv ifft ft
  refine ⟨s2, ?_, hI⟩
  simp only [dc_block, hsp]
  rw [if_pos (by omega : s.length_roll < sp.length)]
  rw [_set_power_eq _ _ rfl (by
    show s.length_roll < (sp.set s.length_roll 0).length
    omega)]
  rw [exceptBind_ok]
  exact hok

theorem zerofill_ok (s : State) (n : ℕ) (hw : s.waveform_array.length = s.length)
    (hL : 1 ≤ s.length) :
    ∃ s2, zerofill s n = .ok s2 ∧ Inv s2 ∧
      s2.length = s.length + n ∧
      s2.length_roll = (s.length + n - 1) / 2 ∧
      s2.sampling_rate = s.sampling_rate ∧
      s2.time_array.length = s.length + n ∧
      s2.frequency_array.length = s.length + n ∧
      s2.positive_frequency_array.length = (s.length + n - 1) / 2 + 1 ∧
      s2.waveform_array = s.waveform_array ++ List.replicate n 0 ∧
      s2.spectrum_array = some ((nproll (dftL (s.waveform_array ++ List.replicate n 0))
        (((s.length + n - 1) / 2 : ℕ) : ℤ)).map (fun z => z / ((s.length + n : ℕ) : ℂ))) ∧
      (∃ W, s2.power_array_W = some W ∧ W.length = (s.length + n - 1) / 2 + 1) ∧
      (∃ D, s2.power_array_dBm = some D ∧ D.length = (s.length + n - 1) / 2 + 1) := by
  have e0 : (zerofillRebuild s n).waveform_array = s.waveform_array ++ List.replicate n 0 :=
    rfl
  have ewl : (s.waveform_array ++ List.replicate n 0).length = s.length + n := by
    rw [List.length_append, List.length_replicate, hw]
  have e1 : (zerofillRebuild s n).length = s.length + n := by
    simp only [zerofillRebuild]
    exact ewl
  have e2 : (zerofillRebuild s n).length_roll = (s.length + n - 1) / 2 := by
    simp only [zerofillRebuild]
    rw [ewl]
  have e4 : (zerofillRebuild s n).time_array.length = s.length + n := by
    simp only [zerofillRebuild]
    rw [linspace_length, ewl]
  have e5 : (zerofillRebuild s n).frequency_array.length = s.length + n := by
    simp only [zerofillRebuild]
    rw [List.length_map, linspace_length, ewl]
  have e6 : (zerofillRebuild s n).positive_frequency_array.length
      = (s.length + n - 1) / 2 + 1 := by
    simp only [zerofillRebuild]
    rw [List.length_map, linspace_length, ewl]
  obtain ⟨s2, hok, h1, h2, h3, h4, h5, h6, h7, h8, h9, h10, h11, h12⟩ :=
    fourier_transform_ok (zerofillRebuild s n)
      (by rw [e1]; omega)
      (by rw [e0, e1, ewl])
      (by rw [e1, e2])
  have hspl : ((nproll (dftL ((zerofillRebuild s n).waveform_array))
      (((zerofillRebuild s n).length_roll : ℕ) : ℤ)).map
      (fun z => z / (((zerofillRebuild s n).length : ℕ) : ℂ))).length = s.length + n := by
    rw [List.length_map, nproll_length, dftL_length, e0, ewl]
  have hPle : (zerofillRebuild s n).length ≤
      (binPowers ((nproll (dftL ((zerofillRebuild s n).waveform_array))
        (((zerofillRebuild s n).length_roll : ℕ) : ℤ)).map
        (fun z => z / (((zerofillRebuild s n).length : ℕ) : ℂ)))
        (zerofillRebuild s n).characteristic_impedance).length := by
    rw [binPowers_length, hspl, e1]
  have hfold := foldPower_length _ (zerofillRebuild s n).length_roll
    (zerofillRebuild s n).length hPle (by rw [e1, e2]) (by rw [e1]; omega)
  refine ⟨s2, hok, ?_, by rw [h5, e1], by rw [h6, e2], by rw [h7]; rfl, by rw [h10]; exact e4,
    by rw [h11]; exact e5, by rw [h12]; exact e6, by rw [h4]; exact e0, ?_,
    ⟨_, h2, by rw [hfold, e2]⟩, ⟨_, h3, by rw [toDBm_length, hfold, e2]⟩⟩
  · refine ⟨?_, ?_, ?_, ⟨_, h1, ?_⟩, ?_, ⟨_, h2, ?_⟩, ⟨_, h3, ?_⟩, ?_, ?_⟩
    · rw [h10, h5, e4, e1]
    · rw [h11, h5, e5, e1]
    · rw [h4, h5, e0, e1, ewl]
    · rw [hspl, h5, e1]
    · rw [h12, h6, e6, e2]
    · rw [h6]
      exact hfold
    · rw [toDBm_length, h6]
      exact hfold
    · rw [h6, h5, e2, e1]
    · rw [h5, e1]
      omega
  · rw [h1, e0, e2, e1]

theorem Inv_lpf (s : State) (f : ℝ) (sp : List ℂ) (a b : ℕ) (hInv : Inv s)
    (hsp : s.spectrum_array = some sp)
    (hla : _get_frequency_array_index s (-f) true = some a)
    (hlb : _get_frequency_array_index s f false = some b)
    (hab : a ≤ b + 1) (ifft : Bool) :
    ∃ s2, lpf s f ifft = .ok s2 ∧ Inv s2 ∧
      s2.length = s.length ∧ s2.length_roll = s.length_roll ∧
      s2.sampling_rate = s.sampling_rate ∧ s2.time_array = s.time_array ∧
      s2.frequency_array = s.frequency_array ∧
      s2.positive_frequency_array = s.positive_frequency_array :=
  Inv_through s (-f) f sp a b hInv hsp hla hlb hab ifft false

theorem Inv_hpf (s : State) (f : ℝ) (sp : List ℂ) (a b : ℕ) (hInv : Inv s)
    (hsp : s.spectrum_array = some sp)
    (hla : _get_frequency_array_index s
      (-f + 0.25 * s.sampling_rate / (s.length : ℝ)) true = some a)
    (hlb : _get_frequency_array_index s
      (f - 0.25 * s.sampling_rate / (s.length : ℝ)) false = some b)
    (hab : a ≤ b + 1) (ifft : Bool) :
    ∃ s2, hpf s f ifft = .ok s2 ∧ Inv s2 ∧
      s2.length = s.length ∧ s2.length_roll = s.length_roll ∧
      s2.sampling_rate = s.sampling_rate ∧ s2.time_array = s.time_array ∧
      s2.frequency_array = s.frequency_array ∧
      s2.positive_frequency_array = s.positive_frequency_array :=
  Inv_block s _ _ sp a b hInv hsp hla hlb hab ifft false

theorem Inv_bpf (s : State) (low high : ℝ) (sp : List ℂ) (a1 b1 a2 b2 : ℕ)
    (hInv : Inv s) (hsp : s.spectrum_array = some sp)
    (h1a : _get_frequency_array_index s (-high) true = some a1)
    (h1b : _get_frequency_array_index s high false = some b1)
    (hab1 : a1 ≤ b1 + 1)
    (h2a : _get_frequency_array_index s
      (-low + 0.25 * s.sampling_rate / (s.length : ℝ)) true = some a2)
    (h2b : _get_frequency_array_index s
      (low - 0.25 * s.sampling_rate / (s.length : ℝ)) false = some b2)
    (hab2 : a2 ≤ b2 + 1) (ifft ft : Bool) :
    ∃ s3, bpf s low high ifft ft = .ok s3 ∧ Inv s3 := by
  obtain ⟨s1, hok1, hI1, k1, k2, k3, k4, k5, k6⟩ :=
    Inv_through s (-high) high sp a1 b1 hInv hsp h1a h1b hab1 false false
  obtain ⟨sp1, hsp1, _⟩ := hI1.2.2.2.1
  have h2a' : _get_frequency_array_index s1
      (-low + 0.25 * s1.sampling_rate / (s1.length : ℝ)) true = some a2 := by
    rw [k3, k1, freq_locate_congr s1 s k5]
    exact h2a
  have h2b' : _get_frequency_array_index s1
      (low - 0.25 * s1.sampling_rate / (s1.length : ℝ)) false = some b2 := by
    rw [k3, k1, freq_locate_congr s1 s k5]
    exact h2b
  obtain ⟨s2, hok2, hI2, _⟩ := Inv_block s1 _ _ sp1 a2 b2 hI1 hsp1 h2a' h2b' hab2 false false
  obtain ⟨s3, hok3, hI3, _⟩ := Inv_postTransforms s2 hI2 ifft ft
  refine ⟨s3, ?_, hI3⟩
  simp only [bpf]
  rw [show lpf s high false = Except.ok s1 from hok1, exceptBind_ok]
  show (hpf s1 low false >>= fun s2 => postTransforms s2 ifft ft) = Except.ok s3
  rw [show hpf s1 low false = Except.ok s2 from hok2, exceptBind_ok]
  exact hok3

theorem Inv_bsf (s : State) (low high : ℝ) (sp : List ℂ) (a1 b1 a2 b2 : ℕ)
    (hInv : Inv s) (hsp : s.spectrum_array = some sp)
    (h1a : _get_frequency_array_index s (-low) true = some a1)
    (h1b : _get_frequency_array_index s low false = some b1)
    (hab1 : a1 ≤ b1 + 1)
    (h2a : _get_frequency_array_index s
      (-high + 0.25 * s.sampling_rate / (s.length : ℝ)) true = some a2)
    (h2b : _get_frequency_array_index s
      (high - 0.25 * s.sampling_rate / (s.length : ℝ)) false = some b2)
    (hab2 : a2 ≤ b2 + 1) (ifft ft : Bool) :
    ∃ s3, bsf s low high ifft ft = .ok s3 ∧ Inv s3 := by
  obtain ⟨s1, hok1, hI1, k1, k2, k3, k4, k5, k6⟩ :=
    Inv_through s (-low) low sp a1 b1 hInv hsp h1a h1b hab1 false false
  obtain ⟨sp1, hsp1, _⟩ := hI1.2.2.2.1
  have h2a' : _get_frequency_array_index s1
      (-high + 0.25 * s1.sampling_rate / (s1.length : ℝ)) true = some a2 := by
    rw [k3, k1, freq_locate_congr s1 s k5]
    exact h2a
  have h2b' : _get_frequency_array_index s1
      (high - 0.25 * s1.sampling_rate / (s1.length : ℝ)) false = some b2 := by
    rw [k3, k1, freq_locate_congr s1 s k5]
    exact h2b
  obtain ⟨s2, hok2, hI2, _⟩ := Inv_block s1 _ _ sp1 a2 b2 hI1 hsp1 h2a' h2b' hab2 false false
  obtain ⟨s3, hok3, hI3, _⟩ := Inv_postTransforms s2 hI2 ifft ft
  refine ⟨s3, ?_, hI3⟩
  simp only [bsf]
  rw [show lpf s low false = Except.ok s1 from hok1, exceptBind_ok]
  show (hpf s1 high false >>= fun s2 => postTransforms s2 ifft ft) = Except.ok s3
  rw [show hpf s1 high false = Except.ok s2 from hok2, exceptBind_ok]
  exact hok3

theorem locate_first_spec (xs : List ℝ) (t : ℝ) :
    (∀ i, npwhereFirst xs (fun x => t ≤ x) = some i →
      i < xs.length ∧ t ≤ xs.getD i 0 ∧ ∀ j < i, xs.getD j 0 < t) ∧
    (npwhereFirst xs (fun x => t ≤ x) = none ↔ ∀ j < xs.length, xs.getD j 0 < t) := by
  constructor
  · intro i hi
    obtain ⟨h1, h2, h3⟩ := npwhereFirst_eq_some hi
    exact ⟨h1, h2, fun j hj => not_le.mp (h3 j hj)⟩
  · rw [npwhereFirst_eq_none]
    constructor
    · intro h j hj
      exact not_le.mp (h j hj)
    · intro h j hj
      exact not_le.mpr (h j hj)

theorem locate_last_spec (xs : List ℝ) (t : ℝ) :
    (∀ i, npwhereLast xs (fun x => x ≤ t) = some i →
      i < xs.length ∧ xs.getD i 0 ≤ t ∧ ∀ j, i < j → j < xs.length → t < xs.getD j 0) ∧
    (npwhereLast xs (fun x => x ≤ t) = none ↔ ∀ j < xs.length, t < xs.getD j 0) := by
  constructor
  · intro i hi
    obtain ⟨h1, h2, h3⟩ := npwhereLast_eq_some hi
    exact ⟨h1, h2, fun j hij hj => not_le.mp (h3 j hij hj)⟩
  · rw [npwhereLast_eq_none]
    constructor
    · intro h j hj
      exact not_le.mp (h j hj)
    · intro h j hj
      exact not_le.mpr (h j hj)

/-! ## Claims -/

/-- C1: for every waveform array of positive length and every positive
sampling rate, running `fourier_transform` (FFT, roll by `length_roll`,
divide every bin by `length`) and then `inverse_fourier_transform`
(roll back by `length_roll`, inverse FFT, multiply by `length`) on a
state that has not been filtered in between restores `waveform_array`
exactly — in particular element-wise within `1e-9` relative tolerance. -/
theorem C1_round_trip (s : State) (hL : 1 ≤ s.length)
    (hw : s.waveform_array.length = s.length)
    (hlr : s.length_roll = (s.length - 1) / 2) (_hr : 0 < s.sampling_rate) :
    ∃ sf sb, fourier_transform s = .ok sf ∧ inverse_fourier_transform sf = .ok sb ∧
      sb.waveform_array = s.waveform_array ∧
      ∀ i < s.length,
        Complex.abs (sb.waveform_array.getD i 0 - s.waveform_array.getD i 0) ≤
          1e-9 * Complex.abs (s.waveform_array.getD i 0) := by
  obtain ⟨sf, hft, hsp, hpw, hpd, hwv, hlen, hroll, hsr, hz, hmv, hta, hfa, hpf⟩ :=
    fourier_transform_ok s hL hw hlr
  have hspFlen : ((nproll (dftL s.waveform_array) (s.length_roll : ℤ)).map
      (fun z => z / (s.length : ℂ))).length = s.length := by
    rw [List.length_map, nproll_length, dftL_length, hw]
  have hinv := inverse_fourier_transform_ok sf _ hsp (by rw [hspFlen]; omega)
  have hc : (s.length : ℂ) ≠ 0 := by
    exact_mod_cast (by omega : s.length ≠ 0)
  have hX : (idftL (nproll ((nproll (dftL s.waveform_array) (s.length_roll : ℤ)).map
        (fun z => z / (s.length : ℂ))) (-(sf.length_roll : ℤ)))).map
        (fun z => (sf.length : ℂ) * z) = s.waveform_array := by
    rw [hroll, hlen, nproll_map, nproll_cancel, idftL_map_div, idftL_dftL, List.map_map]
    have hcongr : s.waveform_array.map
        ((fun z => (s.length : ℂ) * z) ∘ (fun z => z / (s.length : ℂ)))
        = s.waveform_array.map id :=
      List.map_congr_left (fun z _ => by
        simp only [Function.comp_apply, id_eq]
        field_simp)
    rw [hcongr, List.map_id]
  refine ⟨sf, _, hft, hinv, hX, fun i _ => ?_⟩
  rw [hX]
  rw [sub_self, map_zero]
  positivity

/-- Witness for C1 at the length-1 state `sOne` (waveform `[1]`,
sampling rate 1). -/
theorem C1_round_trip_witness :
    (1 ≤ sOne.length ∧ sOne.waveform_array.length = sOne.length ∧
      sOne.length_roll = (sOne.length - 1) / 2 ∧ 0 < sOne.sampling_rate) ∧
    (∃ sf sb, fourier_transform sOne = .ok sf ∧ inverse_fourier_transform sf = .ok sb ∧
      sb.waveform_array = sOne.waveform_array ∧
      ∀ i < sOne.length,
        Complex.abs (sb.waveform_array.getD i 0 - sOne.waveform_array.getD i 0) ≤
          1e-9 * Complex.abs (sOne.waveform_array.getD i 0)) :=
  ⟨⟨by decide, by decide, by decide, by norm_num [sOne]⟩,
    C1_round_trip sOne (by decide) (by decide) (by decide) (by norm_num [sOne])⟩

/-- C2: on every state whose centered spectrum is current (present, with
`length` entries, and `length_roll = (length-1)/2`), `_set_power`
produces a one-sided watts array of exactly `length_roll + 1` entries:
index 0 is the unfolded DC power `|spectrum[length_roll]|²/Z`, and index
`k` for `1 ≤ k ≤ length_roll` is the folded pair
`|spectrum[length_roll-k]|²/Z + |spectrum[length_roll+k]|²/Z`; the
unmatched top bin (index `length-1`) is excluded when `length` is even
because `length_roll + k ≤ length - 2` there.  The dBm array is
`10·log10(watts·1e3)` clipped below at `1e-20`. -/
theorem C2_power_fold (s : State) (sp : List ℂ) (h : s.spectrum_array = some sp)
    (hsp : sp.length = s.length) (hlr : s.length_roll = (s.length - 1) / 2)
    (hL : 1 ≤ s.length) (hmv : s.minimum_value = 1e-20) :
    ∃ s2 W, _set_power s = .ok s2 ∧
      s2.power_array_W = some W ∧
      W.length = s.length_roll + 1 ∧
      W.getD 0 0 = Complex.abs (sp.getD s.length_roll 0) ^ 2 / s.characteristic_impedance ∧
      (∀ k, 1 ≤ k → k ≤ s.length_roll →
        W.getD k 0 =
          Complex.abs (sp.getD (s.length_roll - k) 0) ^ 2 / s.characteristic_impedance +
          Complex.abs (sp.getD (s.length_roll + k) 0) ^ 2 / s.characteristic_impedance) ∧
      s2.power_array_dBm =
        some (W.map (fun p => 10 * Real.logb 10 (max (p * 1e3) 1e-20))) := by
  have hlt : s.length_roll < sp.length := by omega
  have hPlen : (binPowers sp s.characteristic_impedance).length = s.length := by
    rw [binPowers_length, hsp]
  refine ⟨_, _, _set_power_eq s sp h hlt, rfl, ?_, ?_, ?_, ?_⟩
  · exact foldPower_length _ _ _ hPlen.ge hlr hL
  · rw [foldPower_getD_zero, binPowers_getD _ _ _ hlt, map_pow]
  · intro k hk1 hk2
    rw [foldPower_getD_succ _ _ _ _ hPlen.ge hlr hL hk1 hk2,
      binPowers_getD _ _ _ (by omega), binPowers_getD _ _ _ (by omega), map_pow, map_pow]
  · rw [hmv]
    rfl

/-- Witness for C2 at the length-5 state `sFive` (spectrum all-ones,
impedance 50). -/
theorem C2_power_fold_witness :
    (sFive.spectrum_array = some [1, 1, 1, 1, 1] ∧
      ([1, 1, 1, 1, 1] : List ℂ).length = sFive.length ∧
      sFive.length_roll = (sFive.length - 1) / 2 ∧ 1 ≤ sFive.length ∧
      sFive.minimum_value = 1e-20) ∧
    (∃ s2 W, _set_power sFive = .ok s2 ∧
      s2.power_array_W = some W ∧
      W.length = sFive.length_roll + 1 ∧
      W.getD 0 0 = Complex.abs (([1, 1, 1, 1, 1] : List ℂ).getD sFive.length_roll 0) ^ 2 /
        sFive.characteristic_impedance ∧
      (∀ k, 1 ≤ k → k ≤ sFive.length_roll →
        W.getD k 0 =
          Complex.abs (([1, 1, 1, 1, 1] : List ℂ).getD (sFive.length_roll - k) 0) ^ 2 /
            sFive.characteristic_impedance +
          Complex.abs (([1, 1, 1, 1, 1] : List ℂ).getD (sFive.length_roll + k) 0) ^ 2 /
            sFive.characteristic_impedance) ∧
      s2.power_array_dBm =
        some (W.map (fun p => 10 * Real.logb 10 (max (p * 1e3) 1e-20)))) :=
  ⟨⟨rfl, by decide, by decide, by decide, rfl⟩,
    C2_power_fold sFive [1, 1, 1, 1, 1] rfl (by decide) (by decide) (by decide) rfl⟩

/-- C4, counterexample: at the state `sFive` (whose stored one-sided
watts array is all zeros) and the in-range frequency `0`, the
interpolated watts value is `0` and `get_power` in dBm mode returns
`10·log10(0·1e3)` — the argument of the logarithm is not floored — which
differs from the claimed `10·log10(clip(0·1e3, 1e-20, None))`.  (In the
embedding `Real.log 0 = 0`, so the unclipped result is `0`; numpy
evaluates `log10(0) = -inf`, likewise different from the clipped value.) -/
theorem C4_counterexample :
    get_power sFive 0 false = .ok 0 ∧
    get_power sFive 0 true = .ok 0 ∧
    (10 : ℝ) * Real.logb 10 (max ((0 : ℝ) * 1e3) 1e-20) ≠ 0 := by
  have h0 : get_power sFive 0 false = .ok 0 := by
    norm_num [get_power, _get_positive_frequency_array_index, npwhereLast, npwhere,
      List.filter_cons, List.range_succ, sFive, List.get_eq_getElem]
  have h1 : get_power sFive 0 true = .ok 0 := by
    norm_num [get_power, _get_positive_frequency_array_index, npwhereLast, npwhere,
      List.filter_cons, List.range_succ, sFive, List.get_eq_getElem, Real.logb,
      Real.log_zero]
  refine ⟨h0, h1, ?_⟩
  have h2 : max ((0 : ℝ) * 1e3) 1e-20 = 1e-20 := by norm_num
  rw [h2]
  have h3 : Real.log (1e-20 : ℝ) < 0 := Real.log_neg (by norm_num) (by norm_num)
  have h4 : 0 < Real.log 10 := Real.log_pos (by norm_num)
  have h5 : Real.logb 10 (1e-20 : ℝ) < 0 := div_neg_of_neg_of_pos h3 h4
  intro habs
  nlinarith

/-- C4, amended: the `1e-20` floor is applied before the logarithm when
`power_array_dBm` is recomputed by `_set_power`, but `get_power` with
`unit` true converts the interpolated watts value with
`10·log10(power·1e3)` and no floor, so a zero interpolated power reaches
the logarithm unclipped. -/
theorem C4_dbm_conversion (s : State) (f p : ℝ)
    (hp : get_power s f false = .ok p) :
    get_power s f true = .ok (10 * Real.logb 10 (p * 1e3)) ∧
    (∀ sp, s.spectrum_array = some sp → s.length_roll < sp.length →
      ∃ s2, _set_power s = .ok s2 ∧
        s2.power_array_dBm = some
          ((foldPower (binPowers sp s.characteristic_impedance) s.length_roll s.length).map
            (fun q => 10 * Real.logb 10 (max (q * 1e3) s.minimum_value)))) := by
  constructor
  · rcases hloc : _get_positive_frequency_array_index s f false with _ | pt
    · rw [get_power, hloc] at hp
      exact absurd hp (by simp)
    · rcases hW : s.power_array_W with _ | W
      · rw [get_power, hloc, hW] at hp
        exact absurd hp (by simp)
      · by_cases hlt : pt + 1 < W.length
        · simp only [get_power, hloc, hW] at hp ⊢
          rw [dif_pos hlt] at hp ⊢
          rw [if_neg Bool.false_ne_true] at hp
          rw [if_true]
          simp only [Except.ok.injEq] at hp ⊢
          rw [hp]
        · simp only [get_power, hloc, hW] at hp
          rw [dif_neg hlt] at hp
          exact absurd hp (by simp)
  · intro sp hsp hlt
    exact ⟨_, _set_power_eq s sp hsp hlt, rfl⟩

/-- Witness for C4 at `sFive` and frequency `0` (interpolated watts 0). -/
theorem C4_dbm_conversion_witness :
    get_power sFive 0 false = .ok 0 ∧
    (get_power sFive 0 true = .ok (10 * Real.logb 10 ((0 : ℝ) * 1e3)) ∧
      (∀ sp, sFive.spectrum_array = some sp → sFive.length_roll < sp.length →
        ∃ s2, _set_power sFive = .ok s2 ∧
          s2.power_array_dBm = some
            ((foldPower (binPowers sp sFive.characteristic_impedance) sFive.length_roll
              sFive.length).map
              (fun q => 10 * Real.logb 10 (max (q * 1e3) sFive.minimum_value))))) := by
  have h0 : get_power sFive 0 false = .ok 0 := by
    norm_num [get_power, _get_positive_frequency_array_index, npwhereLast, npwhere,
      List.filter_cons, List.range_succ, sFive, List.get_eq_getElem]
  exact ⟨h0, C4_dbm_conversion sFive 0 0 h0⟩

/-- C8: for every state and every time `t`, the ceiling lookup returns
`some i` exactly for the smallest index with `time_array[i] ≥ t` and the
floor lookup for the largest index with `time_array[i] ≤ t`; when no
index qualifies the lookup returns `none` (the `IndexError` from
`np.where(...)[0][0]`, the spec's `OutOfRange`) instead of clamping.
The same contract holds for the two-sided and one-sided frequency
locators against their axes. -/
theorem C8_locators (s : State) (t f g : ℝ) :
    ((∀ i, _get_time_array_index s t true = some i →
        i < s.time_array.length ∧ t ≤ s.time_array.getD i 0 ∧
          ∀ j < i, s.time_array.getD j 0 < t) ∧
      (_get_time_array_index s t true = none ↔
        ∀ j < s.time_array.length, s.time_array.getD j 0 < t) ∧
      (∀ i, _get_time_array_index s t false = some i →
        i < s.time_array.length ∧ s.time_array.getD i 0 ≤ t ∧
          ∀ j, i < j → j < s.time_array.length → t < s.time_array.getD j 0) ∧
      (_get_time_array_index s t false = none ↔
        ∀ j < s.time_array.length, t < s.time_array.getD j 0)) ∧
    ((∀ i, _get_frequency_array_index s f true = some i →
        i < s.frequency_array.length ∧ f ≤ s.frequency_array.getD i 0 ∧
          ∀ j < i, s.frequency_array.getD j 0 < f) ∧
      (_get_frequency_array_index s f true = none ↔
        ∀ j < s.frequency_array.length, s.frequency_array.getD j 0 < f) ∧
      (∀ i, _get_frequency_array_index s f false = some i →
        i < s.frequency_array.length ∧ s.frequency_array.getD i 0 ≤ f ∧
          ∀ j, i < j → j < s.frequency_array.length → f < s.frequency_array.getD j 0) ∧
      (_get_frequency_array_index s f false = none ↔
        ∀ j < s.frequency_array.length, f < s.frequency_array.getD j 0)) ∧
    ((∀ i, _get_positive_frequency_array_index s g true = some i →
        i < s.positive_frequency_array.length ∧ g ≤ s.positive_frequency_array.getD i 0 ∧
          ∀ j < i, s.positive_frequency_array.getD j 0 < g) ∧
      (_get_positive_frequency_array_index s g true = none ↔
        ∀ j < s.positive_frequency_array.length, s.positive_frequency_array.getD j 0 < g) ∧
      (∀ i, _get_positive_frequency_array_index s g false = some i →
        i < s.positive_frequency_array.length ∧ s.positive_frequency_array.getD i 0 ≤ g ∧
          ∀ j, i < j → j < s.positive_frequency_array.length →
            g < s.positive_frequency_array.getD j 0) ∧
      (_get_positive_frequency_array_index s g false = none ↔
        ∀ j < s.positive_frequency_array.length, g < s.positive_frequency_array.getD j 0)) := by
  obtain ⟨a1, a2⟩ := locate_first_spec s.time_array t
  obtain ⟨b1, b2⟩ := locate_last_spec s.time_array t
  obtain ⟨c1, c2⟩ := locate_first_spec s.frequency_array f
  obtain ⟨d1, d2⟩ := locate_last_spec s.frequency_array f
  obtain ⟨e1, e2⟩ := locate_first_spec s.positive_frequency_array g
  obtain ⟨g1, g2⟩ := locate_last_spec s.positive_frequency_array g
  exact ⟨⟨a1, a2, b1, b2⟩, ⟨c1, c2, d1, d2⟩, ⟨e1, e2, g1, g2⟩⟩

/-- Witness for C8: on `sFive`, the ceiling time lookup at `t = 0`
returns index 3 and the characterization follows. -/
theorem C8_locators_witness :
    _get_time_array_index sFive 0 true = some 3 ∧
    (3 < sFive.time_array.length ∧ (0 : ℝ) ≤ sFive.time_array.getD 3 0 ∧
      ∀ j < 3, sFive.time_array.getD j 0 < 0) := by
  have h : _get_time_array_index sFive 0 true = some 3 := by
    norm_num [_get_time_array_index, npwhereFirst, npwhere, List.filter_cons,
      List.range_succ, sFive]
  exact ⟨h, (C8_locators sFive 0 0 0).1.1 3 h⟩

/-- C5, counterexample: the length invariants do not survive every
filter call.  On the valid state `sFive` (all §3 invariants hold),
`through(2, -2)` — a pass band whose low frequency exceeds its high
frequency — locates `low_cut = 4` and `high_cut = 0` and rebuilds the
spectrum as `zeros(4) ++ [] ++ zeros(4)`: 8 entries on a state of
`length` 5, so `len(spectrum_array) = length` is violated after a
public ideal-filter operation. -/
theorem C5_counterexample :
    Inv sFive ∧
    ∃ s2, through sFive 2 (-2) true false = .ok s2 ∧
      ∃ sp2, s2.spectrum_array = some sp2 ∧ sp2.length = 8 ∧ s2.length = 5 := by
  have hInv : Inv sFive :=
    ⟨rfl, rfl, rfl, ⟨[1, 1, 1, 1, 1], rfl, rfl⟩, rfl, ⟨[0, 0, 0], rfl, rfl⟩,
      ⟨[0, 0, 0], rfl, rfl⟩, rfl, by norm_num [sFive]⟩
  have hla : _get_frequency_array_index sFive 2 true = some 4 := by
    norm_num [_get_frequency_array_index, npwhereFirst, npwhere, List.filter_cons,
      List.range_succ, sFive]
  have hlb : _get_frequency_array_index sFive (-2) false = some 0 := by
    norm_num [_get_frequency_array_index, npwhereLast, npwhere, List.filter_cons,
      List.range_succ, sFive]
  obtain ⟨s2, hok, hsp2, hlen2⟩ := through_spectrum_after sFive 2 (-2) [1, 1, 1, 1, 1] 4 0
    rfl rfl hla hlb rfl (by norm_num [sFive]) rfl true
  refine ⟨hInv, s2, hok, throughSpectrum [1, 1, 1, 1, 1] 4 0 sFive.length, hsp2, ?_, by
    rw [hlen2]; rfl⟩
  rw [throughSpectrum_length]
  decide

/-- C5, amended: construction with the transform flag establishes the
§3 length invariants (`Inv`), and every public operation preserves them
— unconditionally for the transforms, windowing, `rectifire`,
`dc_block`, the FIR filters and `zerofill`, and for the ideal filters
under the proviso that their located cut points satisfy
`low_cut ≤ high_cut + 1` (which `locate_band_le` shows always holds
when `low_frequency ≤ high_frequency`); without that proviso the
invariant can break (see the counterexample). -/
theorem C5_length_invariants :
    (∀ (rate : ℝ) (w : List ℂ) (Z : ℝ), rate ≠ 0 → 1 ≤ w.length →
      ∃ s, init rate w true Z = .ok s ∧ Inv s) ∧
    (∀ s, Inv s → ∃ s2, fourier_transform s = .ok s2 ∧ Inv s2) ∧
    (∀ s, Inv s → ∃ s2, inverse_fourier_transform s = .ok s2 ∧ Inv s2) ∧
    (∀ s, Inv s → Inv (hanning s)) ∧
    (∀ s, Inv s → Inv (hamming s)) ∧
    (∀ s pol ft, Inv s → ∃ s2, rectifire s pol ft = .ok s2 ∧ Inv s2) ∧
    (∀ s ifft ft, Inv s → ∃ s2, dc_block s ifft ft = .ok s2 ∧ Inv s2) ∧
    (∀ s lf hf sp a b ifft ft, Inv s → s.spectrum_array = some sp →
      _get_frequency_array_index s lf true = some a →
      _get_frequency_array_index s hf false = some b → a ≤ b + 1 →
      ∃ s2, through s lf hf ifft ft = .ok s2 ∧ Inv s2) ∧
    (∀ s lf hf sp a b ifft ft, Inv s → s.spectrum_array = some sp →
      _get_frequency_array_index s lf true = some a →
      _get_frequency_array_index s hf false = some b → a ≤ b + 1 →
      ∃ s2, block s lf hf ifft ft = .ok s2 ∧ Inv s2) ∧
    (∀ s f sp a b ifft, Inv s → s.spectrum_array = some sp →
      _get_frequency_array_index s (-f) true = some a →
      _get_frequency_array_index s f false = some b → a ≤ b + 1 →
      ∃ s2, lpf s f ifft = .ok s2 ∧ Inv s2) ∧
    (∀ s f sp a b ifft, Inv s → s.spectrum_array = some sp →
      _get_frequency_array_index s (-f + 0.25 * s.sampling_rate / (s.length : ℝ)) true
        = some a →
      _get_frequency_array_index s (f - 0.25 * s.sampling_rate / (s.length : ℝ)) false
        = some b → a ≤ b + 1 →
      ∃ s2, hpf s f ifft = .ok s2 ∧ Inv s2) ∧
    (∀ s low high sp a1 b1 a2 b2 ifft ft, Inv s → s.spectrum_array = some sp →
      _get_frequency_array_index s (-high) true = some a1 →
      _get_frequency_array_index s high false = some b1 → a1 ≤ b1 + 1 →
      _get_frequency_array_index s (-low + 0.25 * s.sampling_rate / (s.length : ℝ)) true
        = some a2 →
      _get_frequency_array_index s (low - 0.25 * s.sampling_rate / (s.length : ℝ)) false
        = some b2 → a2 ≤ b2 + 1 →
      ∃ s3, bpf s low high ifft ft = .ok s3 ∧ Inv s3) ∧
    (∀ s low high sp a1 b1 a2 b2 ifft ft, Inv s → s.spectrum_array = some sp →
      _get_frequency_array_index s (-low) true = some a1 →
      _get_frequency_array_index s low false = some b1 → a1 ≤ b1 + 1 →
      _get_frequency_array_index s (-high + 0.25 * s.sampling_rate / (s.length : ℝ)) true
        = some a2 →
      _get_frequency_array_index s (high - 0.25 * s.sampling_rate / (s.length : ℝ)) false
        = some b2 → a2 ≤ b2 + 1 →
      ∃ s3, bsf s low high ifft ft = .ok s3 ∧ Inv s3) ∧
    (∀ s f nt ft, Inv s → ∃ s2, fir_lpf s f nt ft = .ok s2 ∧ Inv s2) ∧
    (∀ s f nt ft, Inv s → ∃ s2, fir_hpf s f nt ft = .ok s2 ∧ Inv s2) ∧
    (∀ s lf hf nt ft, Inv s → ∃ s2, fir_bpf s lf hf nt ft = .ok s2 ∧ Inv s2) ∧
    (∀ s lf hf nt ft, Inv s → ∃ s2, fir_bsf s lf hf nt ft = .ok s2 ∧ Inv s2) ∧
    (∀ s n, Inv s → ∃ s2, zerofill s n = .ok s2 ∧ Inv s2) := by
  refine ⟨Inv_init, ?_, ?_, Inv_hanning, Inv_hamming,
    fun s pol ft hI => Inv_rectifire s hI pol ft,
    fun s ifft ft hI => Inv_dc_block s hI ifft ft, ?_, ?_, ?_, ?_, ?_, ?_,
    fun s f nt ft hI => Inv_fir_lpf s hI f nt ft,
    fun s f nt ft hI => Inv_fir_hpf s hI f nt ft,
    fun s lf hf nt ft hI => Inv_fir_bpf s hI lf hf nt ft,
    fun s lf hf nt ft hI => Inv_fir_bsf s hI lf hf nt ft, ?_⟩
  · intro s hI
    obtain ⟨s2, hok, hI2, _⟩ := Inv_fourier s hI
    exact ⟨s2, hok, hI2⟩
  · intro s hI
    obtain ⟨s2, hok, hI2, _⟩ := Inv_inverse s hI
    exact ⟨s2, hok, hI2⟩
  · intro s lf hf sp a b ifft ft hI hsp hla hlb hab
    obtain ⟨s2, hok, hI2, _⟩ := Inv_through s lf hf sp a b hI hsp hla hlb hab ifft ft
    exact ⟨s2, hok, hI2⟩
  · intro s lf hf sp a b ifft ft hI hsp hla hlb hab
    obtain ⟨s2, hok, hI2, _⟩ := Inv_block s lf hf sp a b hI hsp hla hlb hab ifft ft
    exact ⟨s2, hok, hI2⟩
  · intro s f sp a b ifft hI hsp hla hlb hab
    obtain ⟨s2, hok, hI2, _⟩ := Inv_lpf s f sp a b hI hsp hla hlb hab ifft
    exact ⟨s2, hok, hI2⟩
  · intro s f sp a b ifft hI hsp hla hlb hab
    obtain ⟨s2, hok, hI2, _⟩ := Inv_hpf s f sp a b hI hsp hla hlb hab ifft
    exact ⟨s2, hok, hI2⟩
  · intro s low high sp a1 b1 a2 b2 ifft ft hI hsp h1a h1b hab1 h2a h2b hab2
    exact Inv_bpf s low high sp a1 b1 a2 b2 hI hsp h1a h1b hab1 h2a h2b hab2 ifft ft
  · intro s low high sp a1 b1 a2 b2 ifft ft hI hsp h1a h1b hab1 h2a h2b hab2
    exact Inv_bsf s low high sp a1 b1 a2 b2 hI hsp h1a h1b hab1 h2a h2b hab2 ifft ft
  · intro s n hI
    obtain ⟨hta, hfa, hwa, _, _, _, _, _, hL⟩ := hI
    obtain ⟨s2, hok, hI2, _⟩ := zerofill_ok s n hwa hL
    exact ⟨s2, hok, hI2⟩

/-- Witness for C5: construction from waveform `[1]` at sampling rate 1
establishes the invariants. -/
theorem C5_length_invariants_witness :
    ((1 : ℝ) ≠ 0 ∧ 1 ≤ ([1] : List ℂ).length) ∧
    ∃ s, init 1 [1] true 50 = .ok s ∧ Inv s :=
  ⟨⟨by norm_num, by decide⟩, C5_length_invariants.1 1 [1] 50 (by norm_num) (by decide)⟩

/-- C6: `zerofill(n)` makes `length` exactly the old length plus `n`,
recomputes `length_roll = (length-1)/2`, rebuilds the three axis arrays
to the lengths the §3 invariants require, keeps the first old-length
waveform samples unchanged with the appended samples zero, and ends by
running the forward transform unconditionally: the resulting
`spectrum_array` is exactly the rolled, normalized FFT of the padded
waveform, and both power arrays are freshly recomputed. -/
theorem C6_zerofill (s : State) (n : ℕ) (hw : s.waveform_array.length = s.length)
    (hL : 1 ≤ s.length) :
    ∃ s2, zerofill s n = .ok s2 ∧
      s2.length = s.length + n ∧
      s2.length_roll = (s.length + n - 1) / 2 ∧
      s2.time_array.length = s.length + n ∧
      s2.frequency_array.length = s.length + n ∧
      s2.positive_frequency_array.length = (s.length + n - 1) / 2 + 1 ∧
      s2.waveform_array.take s.length = s.waveform_array ∧
      s2.waveform_array.drop s.length = List.replicate n 0 ∧
      s2.spectrum_array = some ((nproll (dftL (s.waveform_array ++ List.replicate n 0))
        (((s.length + n - 1) / 2 : ℕ) : ℤ)).map (fun z => z / ((s.length + n : ℕ) : ℂ))) ∧
      (∃ W, s2.power_array_W = some W ∧ W.length = (s.length + n - 1) / 2 + 1) ∧
      (∃ D, s2.power_array_dBm = some D ∧ D.length = (s.length + n - 1) / 2 + 1) := by
  obtain ⟨s2, hok, _, c1, c2, _, c4, c5, c6, c7, c8, c9, c10⟩ := zerofill_ok s n hw hL
  refine ⟨s2, hok, c1, c2, c4, c5, c6, ?_, ?_, c8, c9, c10⟩
  · rw [c7, ← hw, List.take_left]
  · rw [c7, ← hw, List.drop_left]

/-- Witness for C6 at the length-1 state `sOne` with two appended zeros. -/
theorem C6_zerofill_witness :
    (sOne.waveform_array.length = sOne.length ∧ 1 ≤ sOne.length) ∧
    (∃ s2, zerofill sOne 2 = .ok s2 ∧
      s2.length = sOne.length + 2 ∧
      s2.length_roll = (sOne.length + 2 - 1) / 2 ∧
      s2.time_array.length = sOne.length + 2 ∧
      s2.frequency_array.length = sOne.length + 2 ∧
      s2.positive_frequency_array.length = (sOne.length + 2 - 1) / 2 + 1 ∧
      s2.waveform_array.take sOne.length = sOne.waveform_array ∧
      s2.waveform_array.drop sOne.length = List.replicate 2 0 ∧
      s2.spectrum_array = some ((nproll (dftL (sOne.waveform_array ++ List.replicate 2 0))
        (((sOne.length + 2 - 1) / 2 : ℕ) : ℤ)).map
        (fun z => z / ((sOne.length + 2 : ℕ) : ℂ))) ∧
      (∃ W, s2.power_array_W = some W ∧ W.length = (sOne.length + 2 - 1) / 2 + 1) ∧
      (∃ D, s2.power_array_dBm = some D ∧ D.length = (sOne.length + 2 - 1) / 2 + 1)) :=
  ⟨⟨by decide, by decide⟩, C6_zerofill sOne 2 (by decide) (by decide)⟩

/-- C7: with located cut points `a` (ceiling search at `low_frequency`)
and `b` (floor search at `high_frequency`) and `low_frequency ≤
high_frequency`, `through` (the spec's `pass_band`, with its default
`fourier_transform=False` so the spectrum is not recomputed afterwards)
zeroes exactly the bins below `a` and above `b`, leaves the bins inside
the inclusive band `[a, b]` at their previous values, and preserves the
total spectrum length. -/
theorem C7_pass_band (s : State) (lf hf : ℝ) (sp : List ℂ) (a b : ℕ) (ifft : Bool)
    (hsp : s.spectrum_array = some sp) (hspl : sp.length = s.length)
    (hla : _get_frequency_array_index s lf true = some a)
    (hlb : _get_frequency_array_index s hf false = some b)
    (hle : lf ≤ hf)
    (hlr : s.length_roll = (s.length - 1) / 2) (hL : 1 ≤ s.length)
    (hfl : s.frequency_array.length = s.length) :
    ∃ s2, through s lf hf ifft false = .ok s2 ∧
      ∃ sp2, s2.spectrum_array = some sp2 ∧ sp2.length = s.length ∧
        ∀ i < s.length, sp2.getD i 0 = if a ≤ i ∧ i ≤ b then sp.getD i 0 else 0 := by
  have hab : a ≤ b + 1 := locate_band_le hle
    (show npwhereFirst s.frequency_array (fun x => lf ≤ x) = some a from hla)
    (show npwhereLast s.frequency_array (fun x => x ≤ hf) = some b from hlb)
  have haL : a < s.length := by
    have h1 := (npwhereFirst_eq_some (show npwhereFirst s.frequency_array
      (fun x => lf ≤ x) = some a from hla)).1
    omega
  have hbL : b < s.length := by
    have h1 := (npwhereLast_eq_some (show npwhereLast s.frequency_array
      (fun x => x ≤ hf) = some b from hlb)).1
    omega
  obtain ⟨s2, hok, hsp2, _⟩ :=
    through_spectrum_after s lf hf sp a b hsp hspl hla hlb hlr hL hfl ifft
  refine ⟨s2, hok, throughSpectrum sp a b s.length, hsp2, ?_, ?_⟩
  · rw [throughSpectrum_length]
    omega
  · intro i hi
    exact spec_band_getD sp s.length a b hspl haL hbL hab i hi

/-- Witness for C7 at `sFive` with pass band `[-1, 1]` (cut points 1
and 3). -/
theorem C7_pass_band_witness :
    (_get_frequency_array_index sFive (-1) true = some 1 ∧
      _get_frequency_array_index sFive 1 false = some 3 ∧ (-1 : ℝ) ≤ 1) ∧
    (∃ s2, through sFive (-1) 1 true false = .ok s2 ∧
      ∃ sp2, s2.spectrum_array = some sp2 ∧ sp2.length = sFive.length ∧
        ∀ i < sFive.length, sp2.getD i 0 =
          if 1 ≤ i ∧ i ≤ 3 then ([1, 1, 1, 1, 1] : List ℂ).getD i 0 else 0) := by
  have hla : _get_frequency_array_index sFive (-1) true = some 1 := by
    norm_num [_get_frequency_array_index, npwhereFirst, npwhere, List.filter_cons,
      List.range_succ, sFive]
  have hlb : _get_frequency_array_index sFive 1 false = some 3 := by
    norm_num [_get_frequency_array_index, npwhereLast, npwhere, List.filter_cons,
      List.range_succ, sFive]
  exact ⟨⟨hla, hlb, by norm_num⟩,
    C7_pass_band sFive (-1) 1 [1, 1, 1, 1, 1] 1 3 true rfl rfl hla hlb (by norm_num)
      rfl (by norm_num [sFive]) rfl⟩

/-- C9, counterexample: the constructor validates nothing — with a
negative sampling rate and a negative characteristic impedance (both
"non-positive", which the claim says must fail with `InvalidDimension`)
construction of a one-sample waveform succeeds. -/
theorem C9_counterexample : ∃ s, init (-1) [1] true (-50) = .ok s := by
  obtain ⟨s2, hok, _⟩ := Inv_initState (-1) [1] (-50) (by decide)
  refine ⟨s2, ?_⟩
  simp only [init]
  rw [if_neg (by norm_num : ¬ (-1 : ℝ) = 0)]
  exact hok

/-- C9, amended: construction fails exactly when `sampling_rate = 0`
(the `ZeroDivisionError` from `length / sampling_rate`) or when the
waveform is empty and the constructor's transform flag is set (the
`ValueError` from `np.fft.fft` on zero points).  Negative sampling
rates, non-positive impedances, and an empty waveform with the flag
unset are never rejected. -/
theorem C9_construction (rate : ℝ) (w : List ℂ) (Z : ℝ) :
    (rate = 0 → ∀ ft, init rate w ft Z = .error .zeroDivisionError) ∧
    (rate ≠ 0 → w.length = 0 → init rate w true Z = .error .valueError) ∧
    (rate ≠ 0 → 1 ≤ w.length → ∃ s, init rate w true Z = .ok s) ∧
    (rate ≠ 0 → init rate w false Z = .ok (initState rate w Z)) := by
  refine ⟨?_, ?_, ?_, ?_⟩
  · intro h ft
    simp only [init]
    rw [if_pos h]
  · intro hr h0
    simp only [init]
    rw [if_neg hr, if_true]
    simp only [fourier_transform]
    rw [if_pos (show (initState rate w Z).waveform_array.length = 0 from h0)]
  · intro hr hw
    obtain ⟨s2, hok, _⟩ := Inv_initState rate w Z hw
    refine ⟨s2, ?_⟩
    simp only [init]
    rw [if_neg hr, if_true]
    exact hok
  · intro hr
    simp only [init]
    rw [if_neg hr, if_neg Bool.false_ne_true]

/-- Witness for C9: a negative sampling rate with an empty waveform and
negative impedance, transform flag unset, constructs successfully. -/
theorem C9_construction_witness :
    (-3 : ℝ) ≠ 0 ∧ init (-3) [] false (-7) = .ok (initState (-3) [] (-7)) :=
  ⟨by norm_num, (C9_construction (-3) [] (-7)).2.2.2 (by norm_num)⟩

/-- C10: constructed with the transform flag false (and a nonzero
sampling rate, so construction succeeds), the state has no
`spectrum_array`, `power_array_W` or `power_array_dBm`; until the first
`fourier_transform` every operation that reads them fails rather than
returning a value (`get_dc_voltage` and `dc_block` with the
`AttributeError` itself; the lookup-based operations fail with either
the locate `IndexError` or the `AttributeError`).  After the first
`fourier_transform` all three arrays exist and those operations succeed
(the lookup-based ones whenever their located indices are in range,
`block` additionally requiring `low_cut ≤ high_cut + 1` so that
`np.zeros` gets a non-negative count). -/
theorem C10_lazy_arrays (rate : ℝ) (w : List ℂ) (Z : ℝ) (hr : rate ≠ 0) :
    init rate w false Z = .ok (initState rate w Z) ∧
    (initState rate w Z).spectrum_array = none ∧
    (initState rate w Z).power_array_W = none ∧
    (initState rate w Z).power_array_dBm = none ∧
    get_dc_voltage (initState rate w Z) = .error .attributeError ∧
    (∀ ifft ft, dc_block (initState rate w Z) ifft ft = .error .attributeError) ∧
    (∀ f, (get_spectrum (initState rate w Z) f).isOk = false) ∧
    (∀ f u, (get_power (initState rate w Z) f u).isOk = false) ∧
    (∀ lf hf ifft ft, (through (initState rate w Z) lf hf ifft ft).isOk = false) ∧
    (∀ lf hf ifft ft, (block (initState rate w Z) lf hf ifft ft).isOk = false) ∧
    (1 ≤ w.length →
      ∃ s2, fourier_transform (initState rate w Z) = .ok s2 ∧
        s2.spectrum_array.isSome = true ∧ s2.power_array_W.isSome = true ∧
        s2.power_array_dBm.isSome = true ∧
        (∃ v, get_dc_voltage s2 = .ok v) ∧
        (∀ ifft, ∃ s3, dc_block s2 ifft false = .ok s3) ∧
        (∀ f pt, _get_frequency_array_index s2 f false = some pt → pt + 1 < w.length →
          ∃ v, get_spectrum s2 f = .ok v) ∧
        (∀ f pt u, _get_positive_frequency_array_index s2 f false = some pt →
          pt + 1 < (w.length - 1) / 2 + 1 → ∃ v, get_power s2 f u = .ok v) ∧
        (∀ lf hf a b ifft, _get_frequency_array_index s2 lf true = some a →
          _get_frequency_array_index s2 hf false = some b →
          ∃ s3, through s2 lf hf ifft false = .ok s3) ∧
        (∀ lf hf a b ifft, _get_frequency_array_index s2 lf true = some a →
          _get_frequency_array_index s2 hf false = some b → a ≤ b + 1 →
          ∃ s3, block s2 lf hf ifft false = .ok s3)) := by
  have hspec0 : (initState rate w Z).spectrum_array = none := rfl
  have hW0 : (initState rate w Z).power_array_W = none := rfl
  refine ⟨?_, rfl, rfl, rfl, rfl, fun _ _ => rfl, ?_, ?_, ?_, ?_, ?_⟩
  · simp only [init]
    rw [if_neg hr, if_neg Bool.false_ne_true]
  · intro f
    rcases h1 : _get_frequency_array_index (initState rate w Z) f false with _ | pt
    · simp only [get_spectrum, h1]
      rfl
    · simp only [get_spectrum, h1, hspec0]
      rfl
  · intro f u
    rcases h1 : _get_positive_frequency_array_index (initState rate w Z) f false with _ | pt
    · simp only [get_power, h1]
      rfl
    · simp only [get_power, h1, hW0]
      rfl
  · intro lf hf ifft ft
    rcases h1 : _get_frequency_array_index (initState rate w Z) lf true with _ | a
    · simp only [through, h1]
      rfl
    · rcases h2 : _get_frequency_array_index (initState rate w Z) hf false with _ | b
      · simp only [through, h1, h2]
        rfl
      · simp only [through, h1, h2, hspec0]
        rfl
  · intro lf hf ifft ft
    rcases h1 : _get_frequency_array_index (initState rate w Z) lf true with _ | a
    · simp only [block, h1]
      rfl
    · rcases h2 : _get_frequency_array_index (initState rate w Z) hf false with _ | b
      · simp only [block, h1, h2]
        rfl
      · simp only [block, h1, h2, hspec0]
        rfl
  · intro hw
    obtain ⟨s2, hok, hI, hlen2, hroll2⟩ := Inv_initState rate w Z hw
    obtain ⟨hta, hfa, hwa, ⟨sp2, hsp2, hspl2⟩, hpfl, ⟨W, hW, hWl⟩, ⟨D, hD, hDl⟩, hlr2, hL2⟩ :=
      hI
    have hIagain : Inv s2 := ⟨hta, hfa, hwa, ⟨sp2, hsp2, hspl2⟩, hpfl, ⟨W, hW, hWl⟩,
      ⟨D, hD, hDl⟩, hlr2, hL2⟩
    refine ⟨s2, hok, by rw [hsp2]; rfl, by rw [hW]; rfl, by rw [hD]; rfl, ?_, ?_, ?_, ?_,
      ?_, ?_⟩
    · have hlt : s2.length_roll < sp2.length := by omega
      exact ⟨_, by simp only [get_dc_voltage, hsp2]; rw [dif_pos hlt]⟩
    · intro ifft
      obtain ⟨s3, hok3, _⟩ := Inv_dc_block s2 hIagain ifft false
      exact ⟨s3, hok3⟩
    · intro f pt hloc hpt
      have hlt : pt + 1 < sp2.length := by
        rw [hspl2, hlen2]
        exact hpt
      exact ⟨_, by simp only [get_spectrum, hloc, hsp2]; rw [dif_pos hlt]⟩
    · intro f pt u hloc hpt
      have hlt : pt + 1 < W.length := by
        rw [hWl, hroll2]
        exact hpt
      cases u with
      | true => exact ⟨_, by simp only [get_power, hloc, hW]; rw [dif_pos hlt, if_true]⟩
      | false => exact ⟨_, by
          simp only [get_power, hloc, hW]
          rw [dif_pos hlt]
          rw [if_neg (by simp)]⟩
    · intro lf hf a b ifft hlo1 hlo2
      obtain ⟨s3, hok3, _⟩ :=
        through_spectrum_after s2 lf hf sp2 a b hsp2 hspl2 hlo1 hlo2 hlr2 hL2 hfa ifft
      exact ⟨s3, hok3⟩
    · intro lf hf a b ifft hlo1 hlo2 hab
      obtain ⟨s3, hok3, _⟩ := Inv_block s2 lf hf sp2 a b hIagain hsp2 hlo1 hlo2 hab ifft false
      exact ⟨s3, hok3⟩

/-- Witness for C10 at sampling rate 1, waveform `[1]`, impedance 50. -/
theorem C10_lazy_arrays_witness :
    (1 : ℝ) ≠ 0 ∧
    (init 1 [1] false 50 = .ok (initState 1 [1] 50) ∧
      (initState 1 [1] 50).spectrum_array = none ∧
      (initState 1 [1] 50).power_array_W = none ∧
      (initState 1 [1] 50).power_array_dBm = none ∧
      get_dc_voltage (initState 1 [1] 50) = .error .attributeError ∧
      (∀ ifft ft, dc_block (initState 1 [1] 50) ifft ft = .error .attributeError) ∧
      (∀ f, (get_spectrum (initState 1 [1] 50) f).isOk = false) ∧
      (∀ f u, (get_power (initState 1 [1] 50) f u).isOk = false) ∧
      (∀ lf hf ifft ft, (through (initState 1 [1] 50) lf hf ifft ft).isOk = false) ∧
      (∀ lf hf ifft ft, (block (initState 1 [1] 50) lf hf ifft ft).isOk = false) ∧
      (1 ≤ ([1] : List ℂ).length →
        ∃ s2, fourier_transform (initState 1 [1] 50) = .ok s2 ∧
          s2.spectrum_array.isSome = true ∧ s2.power_array_W.isSome = true ∧
          s2.power_array_dBm.isSome = true ∧
          (∃ v, get_dc_voltage s2 = .ok v) ∧
          (∀ ifft, ∃ s3, dc_block s2 ifft false = .ok s3) ∧
          (∀ f pt, _get_frequency_array_index s2 f false = some pt →
            pt + 1 < ([1] : List ℂ).length → ∃ v, get_spectrum s2 f = .ok v) ∧
          (∀ f pt u, _get_positive_frequency_array_index s2 f false = some pt →
            pt + 1 < (([1] : List ℂ).length - 1) / 2 + 1 → ∃ v, get_power s2 f u = .ok v) ∧
          (∀ lf hf a b ifft, _get_frequency_array_index s2 lf true = some a →
            _get_frequency_array_index s2 hf false = some b →
            ∃ s3, through s2 lf hf ifft false = .ok s3) ∧
          (∀ lf hf a b ifft, _get_frequency_array_index s2 lf true = some a →
            _get_frequency_array_index s2 hf false = some b → a ≤ b + 1 →
            ∃ s3, block s2 lf hf ifft false = .ok s3))) :=
  ⟨by norm_num, C10_lazy_arrays 1 [1] 50 (by norm_num)⟩

/-- C3, counterexample: numpy basic slices are views, not copies.  On
the heap state `mThree` (spectrum buffer `[1,1,1]`), `zoom` over the
full band binds the spectrum zoom to a view of the spectrum buffer;
the subsequent `dc_block`, which writes `spectrum_array[length_roll] = 0`
into that buffer in place, changes what the previously created zoom
reads from `[1,1,1]` to `[1,0,1]`. -/
theorem C3_counterexample :
    ∃ m1, SpectrumMem.zoomSpec mThree (-1) 1 = .ok m1 ∧
      m1.readZoom = some [1, 1, 1] ∧
      (SpectrumMem.dcBlock m1).readZoom = some [1, 0, 1] ∧
      (SpectrumMem.dcBlock m1).readZoom ≠ m1.readZoom := by
  have h1 : npwhereFirst mThree.frequency_array (fun x => (-1 : ℝ) ≤ x) = some 0 := by
    norm_num [npwhereFirst, npwhere, List.filter_cons, List.range_succ, mThree]
  have h2 : npwhereLast mThree.frequency_array (fun x => x ≤ (1 : ℝ)) = some 2 := by
    norm_num [npwhereLast, npwhere, List.filter_cons, List.range_succ, mThree]
  refine ⟨{ mThree with zoom_view := some (mThree.spec_buf, 0, 2 + 1) }, ?_, ?_, ?_, ?_⟩
  · simp only [SpectrumMem.zoomSpec, h1, h2]
  · rfl
  · rfl
  · intro habs
    simp only [SpectrumMem.readZoom, SpectrumMem.dcBlock, Option.map, mThree,
      SpectrumMem.spec, pyslice] at habs
    norm_num at habs

/-- C3, amended: the zoom results are views aliased to the parent
buffers, not independent copies.  An in-place parent mutation —
`dc_block` writing zero into `spectrum_array[length_roll]` — is visible
through a previously produced spectrum zoom (the zoom afterwards reads
the slice of the mutated buffer); operations that rebuild
`spectrum_array` into a freshly allocated buffer, such as `through`,
leave previously produced zooms unchanged. -/
theorem C3_zoom_aliasing (m : SpectrumMem) (a c : ℕ)
    (hz : m.zoom_view = some (m.spec_buf, a, c))
    (hbuf : m.spec_buf < m.buffers.length) :
    (SpectrumMem.dcBlock m).readZoom =
      some (pyslice (m.spec.set m.length_roll 0) a c) ∧
    (∀ lf hf m2, SpectrumMem.through m lf hf = .ok m2 → m2.readZoom = m.readZoom) := by
  constructor
  · simp only [SpectrumMem.readZoom, SpectrumMem.dcBlock, hz, Option.map]
    congr 1
    rw [List.getD_eq_getElem _ _ (by rw [List.length_set]; exact hbuf),
      List.getElem_set_self]
  · intro lf hf m2 hok
    rcases h1 : npwhereFirst m.frequency_array (fun x => lf ≤ x) with _ | lc
    · simp only [SpectrumMem.through, h1] at hok
      exact absurd hok (by simp)
    · rcases h2 : npwhereLast m.frequency_array (fun x => x ≤ hf) with _ | hc
      · simp only [SpectrumMem.through, h1, h2] at hok
        exact absurd hok (by simp)
      · simp only [SpectrumMem.through, h1, h2, Except.ok.injEq] at hok
        rw [← hok]
        simp only [SpectrumMem.readZoom, hz, Option.map]
        congr 1
        rw [List.getD_append _ _ _ _ hbuf]

/-- Witness for C3 at the zoomed heap `mThree` with the zoom view
installed over the whole spectrum buffer. -/
theorem C3_zoom_aliasing_witness :
    (({ mThree with zoom_view := some (mThree.spec_buf, 0, 3) } : SpectrumMem).zoom_view =
        some (({ mThree with zoom_view := some (mThree.spec_buf, 0, 3) } :
          SpectrumMem).spec_buf, 0, 3) ∧
      ({ mThree with zoom_view := some (mThree.spec_buf, 0, 3) } : SpectrumMem).spec_buf <
        ({ mThree with zoom_view := some (mThree.spec_buf, 0, 3) } :
          SpectrumMem).buffers.length) ∧
    ((SpectrumMem.dcBlock { mThree with zoom_view := some (mThree.spec_buf, 0, 3) }).readZoom
        = some (pyslice
          (({ mThree with zoom_view := some (mThree.spec_buf, 0, 3) } :
            SpectrumMem).spec.set
            ({ mThree with zoom_view := some (mThree.spec_buf, 0, 3) } :
              SpectrumMem).length_roll 0) 0 3) ∧
      (∀ lf hf m2, SpectrumMem.through
          { mThree with zoom_view := some (mThree.spec_buf, 0, 3) } lf hf = .ok m2 →
        m2.readZoom =
          ({ mThree with zoom_view := some (mThree.spec_buf, 0, 3) } :
            SpectrumMem).readZoom)) :=
  ⟨⟨rfl, by decide⟩,
    C3_zoom_aliasing { mThree with zoom_view := some (mThree.spec_buf, 0, 3) } 0 3 rfl
      (by decide)⟩

end WP
